import Mathlib

/-!
# Point-in-polygon (`include/polygon.hpp`): embedding and verified properties

The C++ header defines `geo::Point<T>`, `geo::Line<T>` and `geo::Polygon<T>` with the nested
class `BoundingBox`.  The development below embeds the integer instantiation of the template:

* a coordinate is an `Int` that the coordinate type `T` can represent; `T` is given by its
  two constants `std::numeric_limits<T>::min()` and `::max()` (`NumericLimits`), and is an
  integer type at least as wide as `int`, so that no integer promotion takes place;
* the arithmetic of `_pointLineIntersects` is the arithmetic of `T`: every difference,
  product, quotient and sum is reduced into the range of `T` (`NumericLimits.wrap`, the
  two's-complement result); `/` truncates toward zero (`Int.tdiv`).  Signed overflow is
  undefined in C++: the guarded embedding below raises a fault where the plain embedding
  wraps, and the two agree wherever no intermediate result leaves the range of `T`;
* `points` is the caller's array (a `List Point`, read with `getD`), `_count` the retained
  vertex count; every loop is written with the index variables of the source.
-/

namespace geo

/-! ## Data model -/

/-- Record `Point<T>`: a coordinate pair. -/
structure Point where
  x : Int
  y : Int
deriving DecidableEq, Repr, Inhabited

/-- The `operator==` of `Point<T>`: `x == other.x && y == other.y`. -/
def Point.eq (a other : Point) : Bool :=
  a.x == other.x && a.y == other.y

/-- Enumeration `direction_t`. -/
inductive direction_t where
  | DIR_UP
  | DIR_DOWN
  | DIR_NONE
deriving DecidableEq, Repr

/-- Record `Line<T>`: a view over two points, `p1` the start and `p2` the end. -/
structure Line where
  p1 : Point
  p2 : Point
deriving DecidableEq, Repr

/-- Method `Line::getDirection`. -/
def Line.getDirection (l : Line) : direction_t :=
  if l.p1.y < l.p2.y then direction_t.DIR_UP
  else if l.p1.y > l.p2.y then direction_t.DIR_DOWN
  else direction_t.DIR_NONE

/-- The two constants `std::numeric_limits<T>::min()` and `std::numeric_limits<T>::max()` of
the coordinate type. -/
structure NumericLimits where
  min : Int
  max : Int
deriving DecidableEq, Repr

/-- The limits of `int` (32 bits, two's complement): `-2^31` and `2^31 - 1`. -/
def int32 : NumericLimits :=
  { min := -2147483648, max := 2147483647 }

/-- A coordinate pair is representable in the coordinate type. -/
def NumericLimits.inRange (lim : NumericLimits) (p : Point) : Prop :=
  lim.min ≤ p.x ∧ p.x ≤ lim.max ∧ lim.min ≤ p.y ∧ p.y ≤ lim.max

/-- The value `v` is representable in the coordinate type. -/
def NumericLimits.fits (lim : NumericLimits) (v : Int) : Bool :=
  decide (lim.min ≤ v) && decide (v ≤ lim.max)

/-- The result the coordinate type holds after an arithmetic operation whose exact result
is `v`: `v` reduced modulo the number of values of the type into `[min, max]` (for `int`,
the two's-complement wrap-around modulo `2^32`). -/
def NumericLimits.wrap (lim : NumericLimits) (v : Int) : Int :=
  (v - lim.min) % (lim.max - lim.min + 1) + lim.min

/-- Class `Polygon<T>::BoundingBox`. -/
structure BoundingBox where
  xMin : Int
  xMax : Int
  yMin : Int
  yMax : Int
deriving DecidableEq, Repr

/-- The default constructor `BoundingBox()`: minima at the type's maximum, maxima at the
type's minimum. -/
def BoundingBox.empty (lim : NumericLimits) : BoundingBox :=
  { xMin := lim.max, xMax := lim.min, yMin := lim.max, yMax := lim.min }

/-- Method `BoundingBox::checkPointInBoundingBox`. -/
def BoundingBox.checkPointInBoundingBox (b : BoundingBox) (point : Point) : Bool :=
  if point.x < b.xMin || point.x > b.xMax || point.y < b.yMin || point.y > b.yMax then
    false
  else
    true

/-- Method `BoundingBox::_update(const Point<T>&)`: four independent widenings, in the
order of the source. -/
def BoundingBox._update (b : BoundingBox) (point : Point) : BoundingBox :=
  let b1 := if point.x < b.xMin then { b with xMin := point.x } else b
  let b2 := if point.x > b1.xMax then { b1 with xMax := point.x } else b1
  let b3 := if point.y < b2.yMin then { b2 with yMin := point.y } else b2
  let b4 := if point.y > b3.yMax then { b3 with yMax := point.y } else b3
  b4

/-- The loop of `BoundingBox::_update(const Point<T>*, size_t)`, `remaining` iterations
before the end: the index is `i = count - remaining`. -/
def BoundingBox._updateLoop (points : List Point) (count : Nat) :
    Nat → BoundingBox → BoundingBox
  | 0, b => b
  | remaining + 1, b =>
    let i := count - (remaining + 1)
    BoundingBox._updateLoop points count remaining (b._update (points.getD i default))

/-- Method `BoundingBox::_update(const Point<T>*, size_t)`: `for (i = 0; i < count; ++i)`. -/
def BoundingBox._updateAll (b : BoundingBox) (points : List Point) (count : Nat) :
    BoundingBox :=
  BoundingBox._updateLoop points count count b

/-- Class `Polygon<T>`: the caller's array, the retained count `_count` and the box.  The
field `lim` stands for the template parameter `T`, through its numeric limits. -/
structure Polygon where
  lim : NumericLimits
  points : List Point
  _count : Nat
  boundingBox : BoundingBox
deriving DecidableEq, Repr

/-- The constructor `Polygon(points, count)` with `count = points.length`.  The source reads
`points[0]` and `points[count - 1]`, so it requires a non-empty array; on the empty list
(outside that precondition) this definition retains nothing. -/
def Polygon.new (lim : NumericLimits) (points : List Point) : Polygon :=
  let count := points.length
  let lastIndex := count - 1
  let p0 := points.getD 0 default
  let pl := points.getD lastIndex default
  let _count := if p0.x == pl.x && p0.y == pl.y then lastIndex else count
  { lim := lim
    points := points
    _count := _count
    boundingBox := (BoundingBox.empty lim)._updateAll points _count }

/-- The vertices the polygon retains: the first `_count` entries of the array. -/
def Polygon.retained (P : Polygon) : List Point :=
  P.points.take P._count

/-! ## Validity -/

/-- The inner loop of `isValidPolygon`: `isUnique` for index `i`, false as soon as some
`j < i` has `points[i] == points[j]`. -/
def isUniqueAt (points : List Point) (i : Nat) : Bool :=
  !(List.range i).any fun j => (points.getD i default).eq (points.getD j default)

/-- The outer loop of `isValidPolygon`, `remaining` iterations before the end: the index is
`i = count - remaining`, and `uniquePoints` is the running counter. -/
def isValidLoop (points : List Point) (count : Nat) : Nat → Nat → Bool
  | 0, _ => false
  | remaining + 1, uniquePoints =>
    let i := count - (remaining + 1)
    if isUniqueAt points i then
      if uniquePoints + 1 ≥ 3 then true
      else isValidLoop points count remaining (uniquePoints + 1)
    else isValidLoop points count remaining uniquePoints

/-- Method `Polygon::isValidPolygon`. -/
def Polygon.isValidPolygon (P : Polygon) : Bool :=
  if P._count < 3 then false
  else isValidLoop P.points P._count (P._count - 1) 0

/-! ## The ray-casting predicate -/

/-- Enumeration `line_intersect_t`. -/
inductive line_intersect_t where
  | INTERSECT
  | NO_INTERSECT
  | ON_LINE
deriving DecidableEq, Repr

open direction_t line_intersect_t

/-- Method `Polygon::_pointLineIntersects` over the coordinate type with limits `lim`.  The
parameter `lineDirectionInOut` is passed by value, so the assignment
`lineDirectionInOut = lineDirectionCurrent` of the source changes a local copy only and the
function returns the classification alone.  The four differences, the product, the quotient
and the sum of the interpolation are results of the coordinate type (`lim.wrap`); a
quotient the type cannot hold (`INT_MIN / -1`) wraps like the others. -/
def _pointLineIntersects (lim : NumericLimits) (point : Point) (line : Line)
    (lineDirectionInOut : direction_t) : line_intersect_t :=
  let lineDirectionCurrent := line.getDirection
  if lineDirectionCurrent = DIR_NONE then
    if point.y == line.p1.y && point.x ≥ min line.p1.x line.p2.x &&
        point.x < max line.p1.x line.p2.x then ON_LINE
    else NO_INTERSECT
  else
    let lineDirectionLast := lineDirectionInOut
    if point.y == line.p1.y then
      if point.x ≤ line.p1.x && lineDirectionLast = lineDirectionCurrent then INTERSECT
      else NO_INTERSECT
    else if point.y == line.p2.y then NO_INTERSECT
    else
      let upperPoint := if line.p1.y > line.p2.y then line.p1 else line.p2
      let lowerPoint := if line.p1.y < line.p2.y then line.p1 else line.p2
      if point.y < lowerPoint.y || point.y > upperPoint.y || point.y == line.p2.y then
        NO_INTERSECT
      else if lowerPoint.x == upperPoint.x then
        if point.x == lowerPoint.x then ON_LINE
        else if point.x ≤ lowerPoint.x then INTERSECT
        else NO_INTERSECT
      else
        let normalizedUpperLinePoint : Point :=
          ⟨lim.wrap (upperPoint.x - lowerPoint.x), lim.wrap (upperPoint.y - lowerPoint.y)⟩
        let normalizedPoint : Point :=
          ⟨lim.wrap (point.x - lowerPoint.x), lim.wrap (point.y - lowerPoint.y)⟩
        let pointXOnLine : Int :=
          lim.wrap (Int.tdiv (lim.wrap (normalizedPoint.y * normalizedUpperLinePoint.x))
            normalizedUpperLinePoint.y)
        let pointLeftOfLine : Bool := point.x ≤ lim.wrap (lowerPoint.x + pointXOnLine)
        if pointLeftOfLine then
          if point.y == line.p1.y then NO_INTERSECT else INTERSECT
        else NO_INTERSECT

/-- The seed loop of `checkPointInPolygon`,
`for (i = _count - 1, j = _count - 2; i > 0; i = j--)`: the argument is `i`, and `j = i - 1`
throughout (the loop runs only after the validity check, so `_count ≥ 3`).  The second
argument is the current value of `prevLineDirection`. -/
def seedLoop (points : List Point) : Nat → direction_t → direction_t
  | 0, prevLineDirection => prevLineDirection
  | j + 1, _ =>
    let line : Line := ⟨points.getD j default, points.getD (j + 1) default⟩
    let prevLineDirection := line.getDirection
    if prevLineDirection = DIR_NONE then seedLoop points j prevLineDirection
    else prevLineDirection

/-- The edge loop of `checkPointInPolygon`, `for (i = 0, j = _count - 1; i < _count; j = i++)`,
`remaining` iterations before the end: the index is `i = count - remaining`.
`prevLineDirection` is never written by the loop. -/
def edgeLoop (lim : NumericLimits) (points : List Point) (count : Nat) (point : Point)
    (prevLineDirection : direction_t) : Nat → Nat → Bool → Bool
  | 0, _, isInside => isInside
  | remaining + 1, j, isInside =>
    let i := count - (remaining + 1)
    let line : Line := ⟨points.getD j default, points.getD i default⟩
    match _pointLineIntersects lim point line prevLineDirection with
    | ON_LINE => true
    | INTERSECT => edgeLoop lim points count point prevLineDirection remaining i (!isInside)
    | NO_INTERSECT => edgeLoop lim points count point prevLineDirection remaining i isInside

/-- Method `Polygon::checkPointInPolygon`. -/
def Polygon.checkPointInPolygon (P : Polygon) (point : Point) : Bool :=
  if !P.isValidPolygon then false
  else if !P.boundingBox.checkPointInBoundingBox point then false
  else
    let prevLineDirection := seedLoop P.points (P._count - 1) DIR_NONE
    edgeLoop P.lim P.points P._count point prevLineDirection P._count (P._count - 1) false

/-! ## Guarded embedding of the predicate

The same loops with every array read, every arithmetic operation and the loop bounds
checked: a read at an index that is not below the retained count, an arithmetic result that
the coordinate type cannot represent (signed overflow, `INT_MIN / -1` included), a divisor
that is not positive, or a loop that is still running when its fuel is spent, raises a
`Fault`.  The index variables `i` and `j` of both loops are kept separately, with the
wrap-around of `size_t`. -/

/-- The faults of a guarded run. -/
inductive Fault where
  | indexOutOfRange
  | overflow
  | nonPositiveDivisor
  | outOfFuel
deriving DecidableEq, Repr

/-- The post-decrement `j--` on `size_t` (64 bits): zero wraps to `2^64 - 1`. -/
def size_t_decrement (j : Nat) : Nat :=
  if j = 0 then 18446744073709551615 else j - 1

/-- Guarded read of `points[i]`: a fault unless `i` is below the retained count and inside
the array. -/
def readVertex (points : List Point) (count i : Nat) : Except Fault Point :=
  if i < count then
    match points[i]? with
    | some p => Except.ok p
    | none => Except.error Fault.indexOutOfRange
  else Except.error Fault.indexOutOfRange

/-- Guarded arithmetic result: the exact value `v` when the coordinate type represents it,
the fault `overflow` otherwise. -/
def NumericLimits.checked (lim : NumericLimits) (v : Int) : Except Fault Int :=
  if lim.fits v then Except.ok v else Except.error Fault.overflow

/-- Method `Polygon::_pointLineIntersects` with the arithmetic guarded: each of the four
differences, the product, the quotient and the sum must be representable, and the divisor
`normalizedUpperLinePoint.y` must be strictly positive. -/
def _pointLineIntersectsChecked (lim : NumericLimits) (point : Point) (line : Line)
    (lineDirectionInOut : direction_t) : Except Fault line_intersect_t :=
  let lineDirectionCurrent := line.getDirection
  if lineDirectionCurrent = DIR_NONE then
    if point.y == line.p1.y && point.x ≥ min line.p1.x line.p2.x &&
        point.x < max line.p1.x line.p2.x then Except.ok ON_LINE
    else Except.ok NO_INTERSECT
  else
    let lineDirectionLast := lineDirectionInOut
    if point.y == line.p1.y then
      if point.x ≤ line.p1.x && lineDirectionLast = lineDirectionCurrent then
        Except.ok INTERSECT
      else Except.ok NO_INTERSECT
    else if point.y == line.p2.y then Except.ok NO_INTERSECT
    else
      let upperPoint := if line.p1.y > line.p2.y then line.p1 else line.p2
      let lowerPoint := if line.p1.y < line.p2.y then line.p1 else line.p2
      if point.y < lowerPoint.y || point.y > upperPoint.y || point.y == line.p2.y then
        Except.ok NO_INTERSECT
      else if lowerPoint.x == upperPoint.x then
        if point.x == lowerPoint.x then Except.ok ON_LINE
        else if point.x ≤ lowerPoint.x then Except.ok INTERSECT
        else Except.ok NO_INTERSECT
      else
        match lim.checked (upperPoint.x - lowerPoint.x),
            lim.checked (upperPoint.y - lowerPoint.y),
            lim.checked (point.x - lowerPoint.x),
            lim.checked (point.y - lowerPoint.y) with
        | Except.ok upperX, Except.ok upperY, Except.ok _, Except.ok pointY =>
          match lim.checked (pointY * upperX) with
          | Except.ok product =>
            if 0 < upperY then
              match lim.checked (Int.tdiv product upperY) with
              | Except.ok pointXOnLine =>
                match lim.checked (lowerPoint.x + pointXOnLine) with
                | Except.ok xOnLine =>
                  if point.x ≤ xOnLine then
                    if point.y == line.p1.y then Except.ok NO_INTERSECT
                    else Except.ok INTERSECT
                  else Except.ok NO_INTERSECT
                | Except.error e => Except.error e
              | Except.error e => Except.error e
            else Except.error Fault.nonPositiveDivisor
          | Except.error e => Except.error e
        | _, _, _, _ => Except.error Fault.overflow

/-- The seed loop `for (i = _count - 1, j = _count - 2; i > 0; i = j--)` with guarded reads
and fuel; the arguments are the fuel, `i`, `j` and the current `prevLineDirection`. -/
def seedLoopChecked (points : List Point) (count : Nat) :
    Nat → Nat → Nat → direction_t → Except Fault direction_t
  | 0, i, _, prevLineDirection =>
    if i > 0 then Except.error Fault.outOfFuel else Except.ok prevLineDirection
  | fuel + 1, i, j, prevLineDirection =>
    if i > 0 then
      match readVertex points count j, readVertex points count i with
      | Except.ok pj, Except.ok pi =>
        let line : Line := ⟨pj, pi⟩
        let prevLineDirection := line.getDirection
        if prevLineDirection = DIR_NONE then
          seedLoopChecked points count fuel j (size_t_decrement j) prevLineDirection
        else Except.ok prevLineDirection
      | Except.error e, _ => Except.error e
      | _, Except.error e => Except.error e
    else Except.ok prevLineDirection

/-- The edge loop `for (i = 0, j = _count - 1; i < _count; j = i++)` with guarded reads,
guarded arithmetic and fuel; the arguments are the fuel, `i`, `j` and `isInside`. -/
def edgeLoopChecked (lim : NumericLimits) (points : List Point) (count : Nat)
    (point : Point) (prevLineDirection : direction_t) :
    Nat → Nat → Nat → Bool → Except Fault Bool
  | 0, i, _, isInside =>
    if i < count then Except.error Fault.outOfFuel else Except.ok isInside
  | fuel + 1, i, j, isInside =>
    if i < count then
      match readVertex points count j, readVertex points count i with
      | Except.ok pj, Except.ok pi =>
        match _pointLineIntersectsChecked lim point ⟨pj, pi⟩ prevLineDirection with
        | Except.ok ON_LINE => Except.ok true
        | Except.ok INTERSECT =>
          edgeLoopChecked lim points count point prevLineDirection fuel (i + 1) i
            (!isInside)
        | Except.ok NO_INTERSECT =>
          edgeLoopChecked lim points count point prevLineDirection fuel (i + 1) i isInside
        | Except.error e => Except.error e
      | Except.error e, _ => Except.error e
      | _, Except.error e => Except.error e
    else Except.ok isInside

/-- Method `Polygon::checkPointInPolygon`, guarded, with `fuel` iterations allowed to each
of the two loops. -/
def Polygon.checkPointInPolygonChecked (P : Polygon) (fuel : Nat) (point : Point) :
    Except Fault Bool :=
  if !P.isValidPolygon then Except.ok false
  else if !P.boundingBox.checkPointInBoundingBox point then Except.ok false
  else
    match seedLoopChecked P.points P._count fuel (P._count - 1) (P._count - 2) DIR_NONE with
    | Except.ok prevLineDirection =>
      edgeLoopChecked P.lim P.points P._count point prevLineDirection fuel 0 (P._count - 1)
        false
    | Except.error e => Except.error e

/-- Every coordinate of the point is at most `B` in absolute value. -/
def Point.within (B : Int) (p : Point) : Bool :=
  decide (-B ≤ p.x) && decide (p.x ≤ B) && decide (-B ≤ p.y) && decide (p.y ≤ B)

/-- The coordinate type represents `4 * B * B` and its negative: with coordinates at most
`B` in absolute value, a difference is at most `2 * B` and a product of two differences at
most `4 * B * B`, so no operation of `_pointLineIntersects` overflows.  For `int` the
largest such `B` is 23170. -/
def NumericLimits.holdsProducts (lim : NumericLimits) (B : Int) : Bool :=
  decide (lim.min ≤ -(4 * B * B)) && decide (4 * B * B ≤ lim.max)

/-! ## Variants of the predicate the properties compare the code with -/

/-- The edge loop as the docstring of `_pointLineIntersects` describes it
("will update with current line's direction"): after a non-horizontal edge the recorded
direction becomes that edge's direction, so each start-vertex check compares against the
nearest preceding non-horizontal edge.  The arguments are the remaining iterations, `j`,
the recorded direction and `isInside`. -/
def edgeLoopUpdating (lim : NumericLimits) (points : List Point) (count : Nat)
    (point : Point) : Nat → Nat → direction_t → Bool → Bool
  | 0, _, _, isInside => isInside
  | remaining + 1, j, prevLineDirection, isInside =>
    let i := count - (remaining + 1)
    let line : Line := ⟨points.getD j default, points.getD i default⟩
    let nextLineDirection :=
      if line.getDirection = DIR_NONE then prevLineDirection else line.getDirection
    match _pointLineIntersects lim point line prevLineDirection with
    | ON_LINE => true
    | INTERSECT =>
      edgeLoopUpdating lim points count point remaining i nextLineDirection (!isInside)
    | NO_INTERSECT =>
      edgeLoopUpdating lim points count point remaining i nextLineDirection isInside

/-- The predicate with the edge loop that updates the recorded direction. -/
def Polygon.checkPointInPolygonUpdating (P : Polygon) (point : Point) : Bool :=
  if !P.isValidPolygon then false
  else if !P.boundingBox.checkPointInBoundingBox point then false
  else
    let prevLineDirection := seedLoop P.points (P._count - 1) DIR_NONE
    edgeLoopUpdating P.lim P.points P._count point P._count (P._count - 1)
      prevLineDirection false

/-- The number of increments of `uniquePoints` that the loop of `isValidPolygon` makes when
it runs over all indices `1 ≤ i < count`: the indices whose point has no earlier equal. -/
def uniqueIncrements (points : List Point) (count : Nat) : Nat :=
  (List.range' 1 (count - 1)).countP (isUniqueAt points)

/-! ## Reference notions used to state the properties

These are not part of the header: they are the geometric notions the properties are stated
with, written independently of the ray-casting code. -/

/-- Twice the signed area of the triangle `a b q`: positive exactly when `q` lies strictly
to the left of the directed line from `a` to `b`, zero exactly when the three points are
collinear. -/
def cross (a b q : Point) : Int :=
  (b.x - a.x) * (q.y - a.y) - (b.y - a.y) * (q.x - a.x)

/-- The point `q` lies on the closed segment from `a` to `b`, endpoints included. -/
def onSegment (a b q : Point) : Bool :=
  cross a b q == 0 && decide (min a.x b.x ≤ q.x) && decide (q.x ≤ max a.x b.x) &&
    decide (min a.y b.y ≤ q.y) && decide (q.y ≤ max a.y b.y)

/-- The edges of the implicitly closed ring over the vertex list `vs`: each vertex to its
successor, and the last vertex back to the first. -/
def ringEdges (vs : List Point) : List Line :=
  (vs.zip (vs.tail ++ vs.take 1)).map fun ab => ⟨ab.1, ab.2⟩

/-- The point `q` lies on the boundary of the polygon: on one of the edges of its ring. -/
def Polygon.onBoundary (P : Polygon) (q : Point) : Bool :=
  (ringEdges P.retained).any fun e => onSegment e.p1 e.p2 q

/-- The point `q` lies strictly to the left of every directed edge of the ring.  Every edge
then subtends a positive angle at `q`, so the ring winds around `q`: the point is strictly
inside (for a convex counter-clockwise ring this is the usual interior test). -/
def Polygon.strictlyLeftOfEveryEdge (P : Polygon) (q : Point) : Bool :=
  (ringEdges P.retained).all fun e => decide (0 < cross e.p1 e.p2 q)

/-- The number of pairwise-distinct points among the retained vertices. -/
def Polygon.distinctCount (P : Polygon) : Nat :=
  P.retained.toFinset.card

/-! ## Inputs of the concrete scenarios -/

/-- The square of the first scenario. -/
def squareVertices : List Point :=
  [⟨0, 0⟩, ⟨10, 0⟩, ⟨10, 10⟩, ⟨0, 10⟩]

/-- A triangle with three pairwise-distinct vertices. -/
def triangleVertices : List Point :=
  [⟨0, 0⟩, ⟨10, 0⟩, ⟨0, 10⟩]

/-- A convex pentagon, counter-clockwise, whose right side has the vertex `(12, 5)`. -/
def pentagonVertices : List Point :=
  [⟨10, 0⟩, ⟨12, 5⟩, ⟨10, 10⟩, ⟨0, 10⟩, ⟨0, 0⟩]

/-- A diamond: all four edges are sloped. -/
def diamondVertices : List Point :=
  [⟨0, 5⟩, ⟨5, 0⟩, ⟨10, 5⟩, ⟨5, 10⟩]

/-- The degenerate list of the third scenario. -/
def degenerateVertices : List Point :=
  [⟨0, 0⟩, ⟨0, 0⟩, ⟨0, 0⟩]

/-- The concave L-shaped polygon of the second scenario. -/
def lShapeVertices : List Point :=
  [⟨0, 0⟩, ⟨10, 0⟩, ⟨10, 5⟩, ⟨5, 5⟩, ⟨5, 10⟩, ⟨0, 10⟩]

/-- The square of the fourth scenario, with the collinear vertex `(5, 0)`. -/
def collinearSquareVertices : List Point :=
  [⟨0, 0⟩, ⟨5, 0⟩, ⟨10, 0⟩, ⟨10, 10⟩, ⟨0, 10⟩]

/-- The pentagon started one vertex earlier in ring order: a cyclic rotation of
`pentagonVertices`. -/
def rotatedPentagonVertices : List Point :=
  [⟨0, 0⟩, ⟨10, 0⟩, ⟨12, 5⟩, ⟨10, 10⟩, ⟨0, 10⟩]

/-- A convex counter-clockwise quadrilateral whose edge from `(3, 0)` to `(0, 2)` leans
left. -/
def leaningVertices : List Point :=
  [⟨0, 0⟩, ⟨3, 0⟩, ⟨0, 2⟩, ⟨-1, 1⟩]

/-- A quadrilateral over `int` whose heights are the two extremes of the type. -/
def extremeVertices : List Point :=
  [⟨0, -2147483648⟩, ⟨1, 2147483647⟩, ⟨-5, 2147483647⟩, ⟨-5, -2147483648⟩]

/-- A quadrilateral over `int` with coordinates up to `100000`, whose edge from `(0, 0)` to
`(100000, 100000)` is sloped. -/
def largeVertices : List Point :=
  [⟨0, 0⟩, ⟨100000, 100000⟩, ⟨0, 100000⟩, ⟨-10, 50000⟩]

/-! ## Properties -/

/-- C1 (the code departs from the claim): the pentagon `pentagonVertices` is valid and
`(5, 5)` lies strictly to the left of each of its five edges, hence strictly inside, yet
`checkPointInPolygon` returns false for it. -/
theorem C1_interior_point_rejected :
    (Polygon.new int32 pentagonVertices).isValidPolygon = true ∧
    (Polygon.new int32 pentagonVertices).strictlyLeftOfEveryEdge ⟨5, 5⟩ = true ∧
    (Polygon.new int32 pentagonVertices).checkPointInPolygon ⟨5, 5⟩ = false := by
  decide

/-- C2 (the code departs from the claim): the vertex `(10, 10)` of the valid square and the
point `(2, 3)` of the sloped edge from `(0, 5)` to `(5, 0)` of the valid diamond lie on the
boundary, yet `checkPointInPolygon` returns false for both. -/
theorem C2_boundary_points_rejected :
    ((Polygon.new int32 squareVertices).isValidPolygon = true ∧
      (Polygon.new int32 squareVertices).onBoundary ⟨10, 10⟩ = true ∧
      (Polygon.new int32 squareVertices).checkPointInPolygon ⟨10, 10⟩ = false) ∧
    ((Polygon.new int32 diamondVertices).isValidPolygon = true ∧
      (Polygon.new int32 diamondVertices).onBoundary ⟨2, 3⟩ = true ∧
      (Polygon.new int32 diamondVertices).checkPointInPolygon ⟨2, 3⟩ = false) := by
  decide

/-- C3 (the code departs from the claim): the triangle `(0,0), (10,0), (0,10)` retains three
vertices, all three pairwise distinct, and `isValidPolygon` returns false for it. -/
theorem C3_distinct_triangle_invalid :
    (Polygon.new int32 triangleVertices)._count = 3 ∧
    (Polygon.new int32 triangleVertices).distinctCount = 3 ∧
    (Polygon.new int32 triangleVertices).isValidPolygon = false := by
  decide

/-- C5 (the code departs from the claim at the vertex): on the square, `checkPointInPolygon`
returns true for `(5, 5)`, false for `(15, 5)`, true for `(0, 5)`, and false for the vertex
`(10, 10)`. -/
theorem C5_square_scenario :
    (Polygon.new int32 squareVertices).checkPointInPolygon ⟨5, 5⟩ = true ∧
    (Polygon.new int32 squareVertices).checkPointInPolygon ⟨15, 5⟩ = false ∧
    (Polygon.new int32 squareVertices).checkPointInPolygon ⟨0, 5⟩ = true ∧
    (Polygon.new int32 squareVertices).checkPointInPolygon ⟨10, 10⟩ = false := by
  decide

/-- C6 (the code departs from the claim): for the pentagon and the strictly interior point
`(5, 5)`, `checkPointInPolygon` returns false on the given vertex order and true on the
reversed order. -/
theorem C6_reversal_changes_result :
    (Polygon.new int32 pentagonVertices).strictlyLeftOfEveryEdge ⟨5, 5⟩ = true ∧
    (Polygon.new int32 pentagonVertices).checkPointInPolygon ⟨5, 5⟩ = false ∧
    (Polygon.new int32 pentagonVertices.reverse).checkPointInPolygon ⟨5, 5⟩ = true := by
  decide

/-- C8: whenever `checkPointInPolygon` accepts a point, the bounding box contains it. -/
theorem C8_accepted_point_in_bounding_box (lim : NumericLimits) (vs : List Point)
    (q : Point) (h : (Polygon.new lim vs).checkPointInPolygon q = true) :
    (Polygon.new lim vs).boundingBox.checkPointInBoundingBox q = true := by
  unfold Polygon.checkPointInPolygon at h
  by_cases hb : (Polygon.new lim vs).boundingBox.checkPointInBoundingBox q = true
  · exact hb
  · simp [hb] at h

/-- Witness for C8 at the square and the point `(5, 5)`. -/
theorem C8_accepted_point_in_bounding_box_witness :
    (Polygon.new int32 squareVertices).checkPointInPolygon ⟨5, 5⟩ = true ∧
    (Polygon.new int32 squareVertices).boundingBox.checkPointInBoundingBox ⟨5, 5⟩ = true :=
  ⟨by decide, C8_accepted_point_in_bounding_box int32 squareVertices ⟨5, 5⟩ (by decide)⟩

/-! ### Equality of points -/

/-- The operator `==` of points decides equality of points. -/
theorem Point.eq_iff (a b : Point) : a.eq b = true ↔ a = b := by
  obtain ⟨ax, ay⟩ := a
  obtain ⟨bx, byy⟩ := b
  simp [Point.eq]

/-! ### The bounding box -/

/-- Closed form of `_update`: each extent is the minimum (maximum) of the old extent and
the point's coordinate. -/
theorem BoundingBox._update_eq (b : BoundingBox) (p : Point) :
    b._update p =
      ⟨min b.xMin p.x, max b.xMax p.x, min b.yMin p.y, max b.yMax p.y⟩ := by
  obtain ⟨x0, x1, y0, y1⟩ := b
  obtain ⟨px, py⟩ := p
  have e1 : min x0 px = if px < x0 then px else x0 := by
    rw [min_def]; split_ifs <;> omega
  have e2 : max x1 px = if px > x1 then px else x1 := by
    rw [max_def]; split_ifs <;> omega
  have e3 : min y0 py = if py < y0 then py else y0 := by
    rw [min_def]; split_ifs <;> omega
  have e4 : max y1 py = if py > y1 then py else y1 := by
    rw [max_def]; split_ifs <;> omega
  rw [e1, e2, e3, e4]
  unfold BoundingBox._update
  by_cases h1 : px < x0 <;> by_cases h2 : px > x1 <;> by_cases h3 : py < y0 <;>
    by_cases h4 : py > y1 <;> simp [h1, h2, h3, h4]

/-- The four extents after `_update`. -/
theorem BoundingBox._update_fields (b : BoundingBox) (p : Point) :
    (b._update p).xMin = min b.xMin p.x ∧ (b._update p).xMax = max b.xMax p.x ∧
    (b._update p).yMin = min b.yMin p.y ∧ (b._update p).yMax = max b.yMax p.y := by
  rw [BoundingBox._update_eq]
  exact ⟨rfl, rfl, rfl, rfl⟩

/-- The box contains a point exactly when the four comparisons of the source hold. -/
theorem BoundingBox.checkPointInBoundingBox_iff (b : BoundingBox) (p : Point) :
    b.checkPointInBoundingBox p = true ↔
      b.xMin ≤ p.x ∧ p.x ≤ b.xMax ∧ b.yMin ≤ p.y ∧ p.y ≤ b.yMax := by
  unfold BoundingBox.checkPointInBoundingBox
  constructor
  · intro h
    split_ifs at h with hc
    simp only [Bool.or_eq_true, decide_eq_true_eq, not_or, not_lt] at hc
    omega
  · intro h
    rw [if_neg]
    simp only [Bool.or_eq_true, decide_eq_true_eq, not_or, not_lt]
    omega

/-- The update loop folds `_update` over the array entries from index
`count - remaining` up to `count`. -/
theorem BoundingBox._updateLoop_eq_foldl (points : List Point) (count : Nat)
    (hc : count ≤ points.length) :
    ∀ (remaining : Nat) (b : BoundingBox), remaining ≤ count →
      BoundingBox._updateLoop points count remaining b =
        ((points.take count).drop (count - remaining)).foldl BoundingBox._update b := by
  intro remaining
  induction remaining with
  | zero =>
    intro b _
    simp [BoundingBox._updateLoop]
    rw [List.drop_of_length_le (by simp)]
    rfl
  | succ r ih =>
    intro b hr
    have hi : count - (r + 1) < (points.take count).length := by
      simp only [List.length_take]; omega
    have hlt : count - (r + 1) < points.length := by omega
    rw [List.drop_eq_getElem_cons hi, List.foldl_cons]
    have hstep : count - (r + 1) + 1 = count - r := by omega
    rw [hstep, BoundingBox._updateLoop, ih _ (by omega)]
    simp only [List.getElem_take, List.getD_eq_getElem _ _ hlt]

/-- The box update over the first `count` entries is the fold of `_update` over them. -/
theorem BoundingBox._updateAll_eq_foldl (b : BoundingBox) (points : List Point) (count : Nat)
    (hc : count ≤ points.length) :
    b._updateAll points count = (points.take count).foldl BoundingBox._update b := by
  unfold BoundingBox._updateAll
  rw [BoundingBox._updateLoop_eq_foldl points count hc count b (le_refl _)]
  simp

/-- The retained count never exceeds the length of the array. -/
theorem Polygon.new_count_le (lim : NumericLimits) (vs : List Point) :
    (Polygon.new lim vs)._count ≤ vs.length := by
  simp only [Polygon.new]
  split_ifs <;> omega

/-- The box of a constructed polygon is the fold of `_update` over the retained vertices,
started at the default box. -/
theorem Polygon.new_boundingBox (lim : NumericLimits) (vs : List Point) :
    (Polygon.new lim vs).boundingBox =
      (Polygon.new lim vs).retained.foldl BoundingBox._update (BoundingBox.empty lim) := by
  have h := Polygon.new_count_le lim vs
  exact BoundingBox._updateAll_eq_foldl _ vs _ h

/-- Folding `_update` only widens the box, and the result contains every folded point. -/
theorem BoundingBox.foldl_update_contains (l : List Point) :
    ∀ b : BoundingBox,
      ((l.foldl BoundingBox._update b).xMin ≤ b.xMin ∧
        b.xMax ≤ (l.foldl BoundingBox._update b).xMax ∧
        (l.foldl BoundingBox._update b).yMin ≤ b.yMin ∧
        b.yMax ≤ (l.foldl BoundingBox._update b).yMax) ∧
      ∀ p ∈ l, (l.foldl BoundingBox._update b).xMin ≤ p.x ∧
        p.x ≤ (l.foldl BoundingBox._update b).xMax ∧
        (l.foldl BoundingBox._update b).yMin ≤ p.y ∧
        p.y ≤ (l.foldl BoundingBox._update b).yMax := by
  induction l with
  | nil => intro b; simp
  | cons a t ih =>
    intro b
    obtain ⟨⟨h1, h2, h3, h4⟩, hall⟩ := ih (b._update a)
    obtain ⟨e1, e2, e3, e4⟩ := BoundingBox._update_fields b a
    rw [e1] at h1
    rw [e2] at h2
    rw [e3] at h3
    rw [e4] at h4
    simp only [List.foldl_cons]
    refine ⟨⟨?_, ?_, ?_, ?_⟩, ?_⟩
    · exact le_trans h1 (min_le_left _ _)
    · exact le_trans (le_max_left _ _) h2
    · exact le_trans h3 (min_le_left _ _)
    · exact le_trans (le_max_left _ _) h4
    · intro p hp
      rcases List.mem_cons.mp hp with hpa | hp
      · rw [hpa]
        exact ⟨le_trans h1 (min_le_right _ _), le_trans (le_max_right _ _) h2,
          le_trans h3 (min_le_right _ _), le_trans (le_max_right _ _) h4⟩
      · exact hall p hp

/-- Each extent of a folded box is either the starting extent or a coordinate of one of the
folded points. -/
theorem BoundingBox.foldl_update_attained (l : List Point) :
    ∀ b : BoundingBox,
      ((l.foldl BoundingBox._update b).xMin = b.xMin ∨
        ∃ p ∈ l, p.x = (l.foldl BoundingBox._update b).xMin) ∧
      ((l.foldl BoundingBox._update b).xMax = b.xMax ∨
        ∃ p ∈ l, p.x = (l.foldl BoundingBox._update b).xMax) ∧
      ((l.foldl BoundingBox._update b).yMin = b.yMin ∨
        ∃ p ∈ l, p.y = (l.foldl BoundingBox._update b).yMin) ∧
      ((l.foldl BoundingBox._update b).yMax = b.yMax ∨
        ∃ p ∈ l, p.y = (l.foldl BoundingBox._update b).yMax) := by
  induction l with
  | nil => intro b; simp
  | cons a t ih =>
    intro b
    obtain ⟨h1, h2, h3, h4⟩ := ih (b._update a)
    obtain ⟨e1, e2, e3, e4⟩ := BoundingBox._update_fields b a
    rw [e1] at h1
    rw [e2] at h2
    rw [e3] at h3
    rw [e4] at h4
    simp only [List.foldl_cons]
    refine ⟨?_, ?_, ?_, ?_⟩
    · rcases h1 with h | ⟨p, hp, hpe⟩
      · rcases min_choice b.xMin a.x with hm | hm
        · left; rw [h, hm]
        · right; exact ⟨a, List.mem_cons_self _ _, by rw [h, hm]⟩
      · right; exact ⟨p, List.mem_cons_of_mem _ hp, hpe⟩
    · rcases h2 with h | ⟨p, hp, hpe⟩
      · rcases max_choice b.xMax a.x with hm | hm
        · left; rw [h, hm]
        · right; exact ⟨a, List.mem_cons_self _ _, by rw [h, hm]⟩
      · right; exact ⟨p, List.mem_cons_of_mem _ hp, hpe⟩
    · rcases h3 with h | ⟨p, hp, hpe⟩
      · rcases min_choice b.yMin a.y with hm | hm
        · left; rw [h, hm]
        · right; exact ⟨a, List.mem_cons_self _ _, by rw [h, hm]⟩
      · right; exact ⟨p, List.mem_cons_of_mem _ hp, hpe⟩
    · rcases h4 with h | ⟨p, hp, hpe⟩
      · rcases max_choice b.yMax a.y with hm | hm
        · left; rw [h, hm]
        · right; exact ⟨a, List.mem_cons_self _ _, by rw [h, hm]⟩
      · right; exact ⟨p, List.mem_cons_of_mem _ hp, hpe⟩

/-- C9: when at least one vertex is retained and the retained vertices are representable in
the coordinate type, each extent of the constructed box is attained by a retained vertex
and bounds every retained vertex (so the box is the minimal enclosing box of the retained
vertices), and the box contains every retained vertex. -/
theorem C9_bounding_box_minimal (lim : NumericLimits) (vs : List Point)
    (hcount : 1 ≤ (Polygon.new lim vs)._count)
    (hrange : ∀ p ∈ (Polygon.new lim vs).retained, lim.inRange p) :
    ((∃ p ∈ (Polygon.new lim vs).retained, p.x = (Polygon.new lim vs).boundingBox.xMin) ∧
      ∀ p ∈ (Polygon.new lim vs).retained, (Polygon.new lim vs).boundingBox.xMin ≤ p.x) ∧
    ((∃ p ∈ (Polygon.new lim vs).retained, p.x = (Polygon.new lim vs).boundingBox.xMax) ∧
      ∀ p ∈ (Polygon.new lim vs).retained, p.x ≤ (Polygon.new lim vs).boundingBox.xMax) ∧
    ((∃ p ∈ (Polygon.new lim vs).retained, p.y = (Polygon.new lim vs).boundingBox.yMin) ∧
      ∀ p ∈ (Polygon.new lim vs).retained, (Polygon.new lim vs).boundingBox.yMin ≤ p.y) ∧
    ((∃ p ∈ (Polygon.new lim vs).retained, p.y = (Polygon.new lim vs).boundingBox.yMax) ∧
      ∀ p ∈ (Polygon.new lim vs).retained, p.y ≤ (Polygon.new lim vs).boundingBox.yMax) ∧
    ∀ p ∈ (Polygon.new lim vs).retained,
      (Polygon.new lim vs).boundingBox.checkPointInBoundingBox p = true := by
  have hle := Polygon.new_count_le lim vs
  rw [Polygon.new_boundingBox]
  generalize hl : (Polygon.new lim vs).retained = l at hrange ⊢
  have hne : l ≠ [] := by
    intro h0
    have hlen : l.length = (Polygon.new lim vs)._count := by
      rw [← hl, Polygon.retained]
      have : (Polygon.new lim vs).points = vs := rfl
      rw [this, List.length_take]
      omega
    rw [h0] at hlen
    simp at hlen
    omega
  obtain ⟨p0, hp0⟩ := List.exists_mem_of_ne_nil l hne
  obtain ⟨r1, r2, r3, r4⟩ := hrange p0 hp0
  obtain ⟨_, hall⟩ := BoundingBox.foldl_update_contains l (BoundingBox.empty lim)
  obtain ⟨a1, a2, a3, a4⟩ := BoundingBox.foldl_update_attained l (BoundingBox.empty lim)
  obtain ⟨c1, c2, c3, c4⟩ := hall p0 hp0
  have d1 : (BoundingBox.empty lim).xMin = lim.max := rfl
  have d2 : (BoundingBox.empty lim).xMax = lim.min := rfl
  have d3 : (BoundingBox.empty lim).yMin = lim.max := rfl
  have d4 : (BoundingBox.empty lim).yMax = lim.min := rfl
  refine ⟨⟨?_, fun p hp => (hall p hp).1⟩, ⟨?_, fun p hp => (hall p hp).2.1⟩,
    ⟨?_, fun p hp => (hall p hp).2.2.1⟩, ⟨?_, fun p hp => (hall p hp).2.2.2⟩, ?_⟩
  · rcases a1 with h | h
    · exact ⟨p0, hp0, by omega⟩
    · exact h
  · rcases a2 with h | h
    · exact ⟨p0, hp0, by omega⟩
    · exact h
  · rcases a3 with h | h
    · exact ⟨p0, hp0, by omega⟩
    · exact h
  · rcases a4 with h | h
    · exact ⟨p0, hp0, by omega⟩
    · exact h
  · intro p hp
    rw [BoundingBox.checkPointInBoundingBox_iff]
    exact hall p hp

/-- Witness for C9 at the square over 32-bit integers: the box is `[0, 10] × [0, 10]`. -/
theorem C9_bounding_box_minimal_witness :
    (∀ p ∈ (Polygon.new int32 squareVertices).retained,
      (Polygon.new int32 squareVertices).boundingBox.checkPointInBoundingBox p = true) ∧
    (Polygon.new int32 squareVertices).boundingBox = ⟨0, 10, 0, 10⟩ :=
  ⟨(C9_bounding_box_minimal int32 squareVertices (by decide) (by
      intro p hp
      have hp2 : p ∈ squareVertices := hp
      simp only [squareVertices, List.mem_cons, List.mem_singleton, List.not_mem_nil,
        or_false] at hp2
      rcases hp2 with rfl | rfl | rfl | rfl <;>
        simp [NumericLimits.inRange, int32])).2.2.2.2, by decide⟩

/-- C10: updating a box twice with the same point equals updating it once, and updating a
box with a point it contains leaves the box unchanged. -/
theorem C10_update_idempotent (b : BoundingBox) (p : Point) :
    (b._update p)._update p = b._update p ∧
    (b.checkPointInBoundingBox p = true → b._update p = b) := by
  constructor
  · simp only [BoundingBox._update_eq, BoundingBox.mk.injEq]
    refine ⟨?_, ?_, ?_, ?_⟩ <;> simp
  · intro h
    rw [BoundingBox.checkPointInBoundingBox_iff] at h
    obtain ⟨h1, h2, h3, h4⟩ := h
    rw [BoundingBox._update_eq]
    obtain ⟨x0, x1, y0, y1⟩ := b
    simp only [BoundingBox.mk.injEq]
    exact ⟨min_eq_left h1, max_eq_left h2, min_eq_left h3, max_eq_left h4⟩

/-- Witness for C10 at the box `[0, 10] × [0, 10]` and the point `(3, 4)`. -/
theorem C10_update_idempotent_witness :
    (BoundingBox.mk 0 10 0 10).checkPointInBoundingBox ⟨3, 4⟩ = true ∧
    (BoundingBox.mk 0 10 0 10)._update ⟨3, 4⟩ = BoundingBox.mk 0 10 0 10 :=
  ⟨by decide, (C10_update_idempotent (BoundingBox.mk 0 10 0 10) ⟨3, 4⟩).2 (by decide)⟩

/-! ### Validity -/

/-- The uniqueness test at index `i` holds exactly when `points[i]` does not occur among the
earlier entries. -/
theorem isUniqueAt_iff (points : List Point) (i : Nat) (hi : i < points.length) :
    isUniqueAt points i = true ↔ points.getD i default ∉ points.take i := by
  unfold isUniqueAt
  rw [Bool.not_eq_true', ← Bool.not_eq_true, List.any_eq_true]
  apply not_congr
  constructor
  · rintro ⟨j, hj, he⟩
    rw [List.mem_range] at hj
    rw [Point.eq_iff] at he
    rw [List.mem_take_iff_getElem]
    refine ⟨j, lt_min hj (by omega), ?_⟩
    rw [he, List.getD_eq_getElem _ _ (by omega)]
  · intro h
    rw [List.mem_take_iff_getElem] at h
    obtain ⟨j, hj, he⟩ := h
    have hj1 : j < i := lt_of_lt_of_le hj (min_le_left _ _)
    refine ⟨j, List.mem_range.mpr hj1, (Point.eq_iff _ _).mpr ?_⟩
    rw [List.getD_eq_getElem _ _ (by omega : j < points.length)]
    exact he.symm

/-- Extending the prefix by one entry adds one distinct point exactly when the new entry
does not occur earlier. -/
theorem card_take_succ (points : List Point) (i : Nat) (hi : i < points.length) :
    (points.take (i + 1)).toFinset.card =
      (points.take i).toFinset.card +
        (if points.getD i default ∈ points.take i then 0 else 1) := by
  have ht : points.take (i + 1) = points.take i ++ [points.getD i default] := by
    rw [List.take_succ, List.getElem?_eq_getElem hi, List.getD_eq_getElem _ _ hi]
    rfl
  rw [ht, List.toFinset_append, Finset.union_comm]
  have hs : [points.getD i default].toFinset ∪ (points.take i).toFinset =
      insert (points.getD i default) (points.take i).toFinset := by
    ext a
    simp
  rw [hs]
  split_ifs with hm
  · rw [Finset.card_insert_of_mem (List.mem_toFinset.mpr hm)]
    rfl
  · rw [Finset.card_insert_of_not_mem (fun h => hm (List.mem_toFinset.mp h))]

/-- A longer prefix has at least as many distinct points. -/
theorem card_take_mono (points : List Point) {m n : Nat} (h : m ≤ n) :
    (points.take m).toFinset.card ≤ (points.take n).toFinset.card := by
  apply Finset.card_le_card
  intro a ha
  rw [List.mem_toFinset] at ha ⊢
  exact List.take_subset_take_left points h ha

/-- Loop invariant of `isValidPolygon`: at index `i = count - remaining` the counter is the
number of distinct points among the first `i` entries minus one, and the loop returns true
exactly when the first `count` entries hold four distinct points. -/
theorem isValidLoop_iff (points : List Point) (count : Nat) (hc : count ≤ points.length) :
    ∀ (remaining uniquePoints : Nat), remaining + 1 ≤ count → uniquePoints < 3 →
      uniquePoints + 1 = (points.take (count - remaining)).toFinset.card →
      (isValidLoop points count remaining uniquePoints = true ↔
        4 ≤ (points.take count).toFinset.card) := by
  intro remaining
  induction remaining with
  | zero =>
    intro u _ hu hcard
    simp only [isValidLoop, Nat.sub_zero] at hcard ⊢
    constructor
    · intro h; exact absurd h (by simp)
    · intro h; omega
  | succ r ih =>
    intro u hr hu hcard
    have hi : count - (r + 1) < points.length := by omega
    have hstep : count - (r + 1) + 1 = count - r := by omega
    have hsucc := card_take_succ points (count - (r + 1)) hi
    rw [hstep] at hsucc
    unfold isValidLoop
    simp only []
    by_cases hq : isUniqueAt points (count - (r + 1)) = true
    · have hnm := (isUniqueAt_iff points _ hi).mp hq
      rw [if_neg hnm] at hsucc
      rw [if_pos hq]
      by_cases h3 : u + 1 ≥ 3
      · rw [if_pos h3]
        have hmono := card_take_mono points (show count - r ≤ count by omega)
        constructor
        · intro _; omega
        · intro _; rfl
      · rw [if_neg h3]
        exact ih (u + 1) (by omega) (by omega) (by omega)
    · have hm : points.getD (count - (r + 1)) default ∈ points.take (count - (r + 1)) := by
        by_contra hcon
        exact hq ((isUniqueAt_iff points _ hi).mpr hcon)
      rw [if_pos hm] at hsucc
      rw [if_neg hq]
      exact ih u (by omega) hu (by omega)

/-- Characterisation of `isValidPolygon` on a polygon whose retained count does not exceed
the array length: it returns true exactly when the retained vertices hold at least four
pairwise-distinct points. -/
theorem isValidPolygon_iff_four_distinct (P : Polygon) (hc : P._count ≤ P.points.length) :
    P.isValidPolygon = true ↔ 4 ≤ P.distinctCount := by
  unfold Polygon.isValidPolygon Polygon.distinctCount Polygon.retained
  by_cases h3 : P._count < 3
  · rw [if_pos h3]
    have hlen : (P.points.take P._count).toFinset.card ≤ P._count := by
      refine le_trans (List.toFinset_card_le _) ?_
      rw [List.length_take]
      exact min_le_left _ _
    constructor
    · intro h; exact absurd h (by simp)
    · intro h; omega
  · rw [if_neg h3]
    apply isValidLoop_iff P.points P._count hc (P._count - 1) 0 (by omega) (by omega)
    have h1 : P._count - (P._count - 1) = 1 := by omega
    rw [h1]
    have hpos : 0 < P.points.length := by omega
    have := card_take_succ P.points 0 hpos
    simp only [List.take_zero, List.toFinset_nil, Finset.card_empty, List.not_mem_nil,
      if_false, Nat.zero_add] at this
    omega

/-- C4: a constructed polygon that retains fewer than three vertices, or fewer than three
pairwise-distinct points among them, is invalid and rejects every query point; and any
polygon that is invalid rejects every query point. -/
theorem C4_degenerate_polygon_rejects_all (lim : NumericLimits) (vs : List Point) :
    (((Polygon.new lim vs)._count < 3 ∨ (Polygon.new lim vs).distinctCount < 3) →
      (Polygon.new lim vs).isValidPolygon = false ∧
      ∀ q : Point, (Polygon.new lim vs).checkPointInPolygon q = false) ∧
    (∀ (P : Polygon) (q : Point),
      P.isValidPolygon = false → P.checkPointInPolygon q = false) := by
  have hgen : ∀ (P : Polygon) (q : Point),
      P.isValidPolygon = false → P.checkPointInPolygon q = false := by
    intro P q h
    unfold Polygon.checkPointInPolygon
    rw [h]
    rfl
  refine ⟨?_, hgen⟩
  intro h
  have hinv : (Polygon.new lim vs).isValidPolygon = false := by
    rcases h with h | h
    · unfold Polygon.isValidPolygon
      rw [if_pos h]
    · by_contra hcon
      rw [Bool.not_eq_false] at hcon
      have h4 := (isValidPolygon_iff_four_distinct _ (Polygon.new_count_le lim vs)).mp hcon
      omega
  exact ⟨hinv, fun q => hgen _ q hinv⟩

/-- Witness for C4 at the degenerate list `[(0,0), (0,0), (0,0)]`: two vertices are retained,
the polygon is invalid and it rejects the point `(0, 0)`. -/
theorem C4_degenerate_polygon_rejects_all_witness :
    (Polygon.new int32 degenerateVertices)._count = 2 ∧
    (Polygon.new int32 degenerateVertices).isValidPolygon = false ∧
    (Polygon.new int32 degenerateVertices).checkPointInPolygon ⟨0, 0⟩ = false :=
  ⟨by decide,
    ((C4_degenerate_polygon_rejects_all int32 degenerateVertices).1
      (Or.inl (by decide))).1,
    ((C4_degenerate_polygon_rejects_all int32 degenerateVertices).1
      (Or.inl (by decide))).2 ⟨0, 0⟩⟩

/-! ### The methods read the array below the retained count only -/

/-- The uniqueness test at `i` depends on the entries up to index `i` only. -/
theorem isUniqueAt_congr (l1 l2 : List Point) (i : Nat)
    (h : ∀ k, k ≤ i → l1.getD k default = l2.getD k default) :
    isUniqueAt l1 i = isUniqueAt l2 i := by
  unfold isUniqueAt
  congr 1
  rw [Bool.eq_iff_iff]
  simp only [List.any_eq_true, List.mem_range]
  constructor
  · rintro ⟨j, hj, he⟩
    refine ⟨j, hj, ?_⟩
    rw [← h i (le_refl _), ← h j (le_of_lt hj)]
    exact he
  · rintro ⟨j, hj, he⟩
    refine ⟨j, hj, ?_⟩
    rw [h i (le_refl _), h j (le_of_lt hj)]
    exact he

/-- The validity loop depends on the entries below `count` only. -/
theorem isValidLoop_congr (l1 l2 : List Point) (count : Nat) (hpos : 0 < count)
    (h : ∀ k, k < count → l1.getD k default = l2.getD k default) :
    ∀ remaining uniquePoints : Nat,
      isValidLoop l1 count remaining uniquePoints =
        isValidLoop l2 count remaining uniquePoints := by
  intro remaining
  induction remaining with
  | zero => intro u; rfl
  | succ r ih =>
    intro u
    unfold isValidLoop
    simp only []
    rw [isUniqueAt_congr l1 l2 (count - (r + 1)) (fun k hk => h k (by omega)), ih, ih]

/-- The seed loop started at `i` depends on the entries up to index `i` only. -/
theorem seedLoop_congr (l1 l2 : List Point) :
    ∀ (i : Nat) (d : direction_t),
      (∀ k, k ≤ i → l1.getD k default = l2.getD k default) →
      seedLoop l1 i d = seedLoop l2 i d := by
  intro i
  induction i with
  | zero => intro d _; rfl
  | succ j ih =>
    intro d h
    unfold seedLoop
    simp only []
    rw [h j (by omega), h (j + 1) (le_refl _), ih _ (fun k hk => h k (by omega))]

/-- The edge loop depends on the entries below `count` only. -/
theorem edgeLoop_congr (lim : NumericLimits) (l1 l2 : List Point) (count : Nat)
    (point : Point) (d : direction_t)
    (h : ∀ k, k < count → l1.getD k default = l2.getD k default) :
    ∀ (remaining j : Nat) (isInside : Bool), j < count →
      edgeLoop lim l1 count point d remaining j isInside =
        edgeLoop lim l2 count point d remaining j isInside := by
  intro remaining
  induction remaining with
  | zero => intro j b _; rfl
  | succ r ih =>
    intro j b hj
    have hi : count - (r + 1) < count := by omega
    unfold edgeLoop
    simp only []
    rw [h j hj, h _ hi, ih _ _ hi, ih _ _ hi]

/-- Two polygons with the same retained count, the same box and the same entries below the
retained count have the same validity and accept the same points. -/
theorem Polygon.methods_congr (P1 P2 : Polygon) (hl : P1.lim = P2.lim)
    (hc : P1._count = P2._count) (hb : P1.boundingBox = P2.boundingBox)
    (h : ∀ k, k < P1._count → P1.points.getD k default = P2.points.getD k default) :
    P1.isValidPolygon = P2.isValidPolygon ∧
    ∀ q : Point, P1.checkPointInPolygon q = P2.checkPointInPolygon q := by
  have hv : P1.isValidPolygon = P2.isValidPolygon := by
    unfold Polygon.isValidPolygon
    rw [← hc]
    by_cases h3 : P1._count < 3
    · rw [if_pos h3, if_pos h3]
    · rw [if_neg h3, if_neg h3]
      exact isValidLoop_congr _ _ _ (by omega) h _ _
  refine ⟨hv, fun q => ?_⟩
  unfold Polygon.checkPointInPolygon
  rw [← hv, ← hb, ← hc, ← hl]
  by_cases hval : P1.isValidPolygon = true
  · have h3 : ¬ P1._count < 3 := by
      intro hlt
      unfold Polygon.isValidPolygon at hval
      rw [if_pos hlt] at hval
      exact absurd hval (by simp)
    simp only []
    rw [seedLoop_congr P1.points P2.points (P1._count - 1) direction_t.DIR_NONE
        (fun k hk => h k (by omega)),
      edgeLoop_congr P1.lim P1.points P2.points P1._count q _ h _ _ _ (by omega)]
  · rw [Bool.not_eq_true] at hval
    rw [hval]
    rfl

/-- The retained count of a constructed polygon, by the comparison of the first and last
entries. -/
theorem Polygon.new_count (lim : NumericLimits) (vs : List Point) :
    (Polygon.new lim vs)._count =
      if (vs.getD 0 default).eq (vs.getD (vs.length - 1) default) then vs.length - 1
      else vs.length :=
  rfl

/-- C7: for a vertex list whose last vertex differs from its first, the polygon built from
the list with its first vertex appended and the polygon built from the list itself both
retain exactly the vertices of the list, and they have the same bounding box, the same
validity and the same result on every query point. -/
theorem C7_closure_idempotent (lim : NumericLimits) (vs : List Point) (hne : vs ≠ [])
    (hdiff : vs.head hne ≠ vs.getLast hne) :
    (Polygon.new lim (vs ++ [vs.head hne]))._count = vs.length ∧
    (Polygon.new lim vs)._count = vs.length ∧
    (Polygon.new lim (vs ++ [vs.head hne])).retained = vs ∧
    (Polygon.new lim vs).retained = vs ∧
    (Polygon.new lim (vs ++ [vs.head hne])).boundingBox = (Polygon.new lim vs).boundingBox ∧
    (Polygon.new lim (vs ++ [vs.head hne])).isValidPolygon =
      (Polygon.new lim vs).isValidPolygon ∧
    ∀ q : Point, (Polygon.new lim (vs ++ [vs.head hne])).checkPointInPolygon q =
      (Polygon.new lim vs).checkPointInPolygon q := by
  have hlen : 0 < vs.length := List.length_pos.mpr hne
  have hhead : vs.head hne = vs.getD 0 default := by
    rw [List.getD_eq_getElem _ _ hlen, List.head_eq_getElem]
  have hlast : vs.getLast hne = vs.getD (vs.length - 1) default := by
    rw [List.getD_eq_getElem _ _ (by omega), List.getLast_eq_getElem]
  have hc2 : (Polygon.new lim vs)._count = vs.length := by
    rw [Polygon.new_count, if_neg]
    rw [Point.eq_iff, ← hhead, ← hlast]
    exact hdiff
  have hc1 : (Polygon.new lim (vs ++ [vs.head hne]))._count = vs.length := by
    rw [Polygon.new_count, if_pos]
    · simp
    · rw [Point.eq_iff]
      have e0 : (vs ++ [vs.head hne]).getD 0 default = vs.head hne := by
        rw [List.getD_eq_getElem _ _ (by simp), List.getElem_append_left hlen,
          List.head_eq_getElem]
      have e1 : (vs ++ [vs.head hne]).getD ((vs ++ [vs.head hne]).length - 1) default =
          vs.head hne := by
        have hl : (vs ++ [vs.head hne]).length - 1 = vs.length := by simp
        rw [hl, List.getD_eq_getElem _ _ (by simp),
          List.getElem_append_right (le_refl _)]
        simp
      rw [e0, e1]
  have hr1 : (Polygon.new lim (vs ++ [vs.head hne])).retained = vs := by
    unfold Polygon.retained
    rw [hc1]
    exact List.take_left vs [vs.head hne]
  have hr2 : (Polygon.new lim vs).retained = vs := by
    unfold Polygon.retained
    rw [hc2]
    exact List.take_length vs
  have hb : (Polygon.new lim (vs ++ [vs.head hne])).boundingBox =
      (Polygon.new lim vs).boundingBox := by
    rw [Polygon.new_boundingBox, Polygon.new_boundingBox, hr1, hr2]
  have hag : ∀ k, k < (Polygon.new lim (vs ++ [vs.head hne]))._count →
      (Polygon.new lim (vs ++ [vs.head hne])).points.getD k default =
        (Polygon.new lim vs).points.getD k default := by
    intro k hk
    rw [hc1] at hk
    show (vs ++ [vs.head hne]).getD k default = vs.getD k default
    rw [List.getD_eq_getElem _ _ (by simp; omega), List.getD_eq_getElem _ _ hk,
      List.getElem_append_left hk]
  obtain ⟨hv, hq⟩ := Polygon.methods_congr (Polygon.new lim (vs ++ [vs.head hne]))
    (Polygon.new lim vs) rfl (hc1.trans hc2.symm) hb hag
  exact ⟨hc1, hc2, hr1, hr2, hb, hv, hq⟩

/-- Witness for C7 at the square: appending `(0, 0)` changes neither the retained count nor
the result at `(5, 5)`. -/
theorem C7_closure_idempotent_witness :
    (Polygon.new int32 (squareVertices ++ [⟨0, 0⟩]))._count = 4 ∧
    (Polygon.new int32 (squareVertices ++ [⟨0, 0⟩])).checkPointInPolygon ⟨5, 5⟩ =
      (Polygon.new int32 squareVertices).checkPointInPolygon ⟨5, 5⟩ :=
  ⟨(C7_closure_idempotent int32 squareVertices (by decide) (by decide)).1,
    (C7_closure_idempotent int32 squareVertices (by decide) (by decide)).2.2.2.2.2.2 ⟨5, 5⟩⟩

/-! ### Further scenarios: the L-shape, the recorded direction, rotation -/

set_option maxRecDepth 8000 in
/-- C13: on the L-shaped polygon, `checkPointInPolygon` returns false for `(7, 7)`, a point
of the notch that the bounding box contains, and true for `(2, 2)`. -/
theorem C13_l_shape_scenario :
    (Polygon.new int32 lShapeVertices).boundingBox.checkPointInBoundingBox ⟨7, 7⟩ = true ∧
    (Polygon.new int32 lShapeVertices).checkPointInPolygon ⟨7, 7⟩ = false ∧
    (Polygon.new int32 lShapeVertices).checkPointInPolygon ⟨2, 2⟩ = true := by
  refine ⟨?_, ?_, ?_⟩ <;> decide

/-- C14 (the code departs from the claim): on the valid pentagon with the query point
`(5, 5)`, the edge from `(12, 5)` to `(10, 10)` starts at the query height and is entered by
the upward edge from `(10, 0)`, itself upward: a pass-through vertex.  The edge loop still
passes the seed direction `DIR_DOWN` to it, so the edge is classified `NO_INTERSECT` where
the direction of the entering edge gives `INTERSECT`; the predicate returns false, and the
loop that updates the recorded direction returns true. -/
theorem C14_direction_never_updated :
    (Polygon.new int32 pentagonVertices).isValidPolygon = true ∧
    seedLoop pentagonVertices 4 DIR_NONE = DIR_DOWN ∧
    (Line.mk ⟨10, 0⟩ ⟨12, 5⟩).getDirection = DIR_UP ∧
    (Line.mk ⟨12, 5⟩ ⟨10, 10⟩).getDirection = DIR_UP ∧
    _pointLineIntersects int32 ⟨5, 5⟩ ⟨⟨12, 5⟩, ⟨10, 10⟩⟩ DIR_DOWN = NO_INTERSECT ∧
    _pointLineIntersects int32 ⟨5, 5⟩ ⟨⟨12, 5⟩, ⟨10, 10⟩⟩ DIR_UP = INTERSECT ∧
    (Polygon.new int32 pentagonVertices).checkPointInPolygon ⟨5, 5⟩ = false ∧
    (Polygon.new int32 pentagonVertices).checkPointInPolygonUpdating ⟨5, 5⟩ = true := by
  refine ⟨?_, ?_, ?_, ?_, ?_, ?_, ?_, ?_⟩ <;> decide

/-- C15 (the code departs from the claim): for the horizontal edge from `(10, 10)` to
`(0, 10)`, whatever the recorded direction, the start point `(10, 10)` is classified
`NO_INTERSECT` and the end point `(0, 10)` is classified `ON_LINE`. -/
theorem C15_leftward_edge_excludes_start (d : direction_t) :
    _pointLineIntersects int32 ⟨10, 10⟩ ⟨⟨10, 10⟩, ⟨0, 10⟩⟩ d = NO_INTERSECT ∧
    _pointLineIntersects int32 ⟨0, 10⟩ ⟨⟨10, 10⟩, ⟨0, 10⟩⟩ d = ON_LINE := by
  cases d <;> decide

/-- C20 (the code departs from the claim): the pentagon and its cyclic rotation by four
places are both valid, and for the strictly interior point `(5, 5)` the predicate returns
false on the first and true on the second. -/
theorem C20_rotation_changes_result :
    pentagonVertices.rotate 4 = rotatedPentagonVertices ∧
    (Polygon.new int32 pentagonVertices).isValidPolygon = true ∧
    (Polygon.new int32 rotatedPentagonVertices).isValidPolygon = true ∧
    (Polygon.new int32 pentagonVertices).strictlyLeftOfEveryEdge ⟨5, 5⟩ = true ∧
    (Polygon.new int32 pentagonVertices).checkPointInPolygon ⟨5, 5⟩ = false ∧
    (Polygon.new int32 rotatedPentagonVertices).checkPointInPolygon ⟨5, 5⟩ = true := by
  decide

/-! ### The bounding-box invariant -/

/-- C11: the first update of the default box with a representable point `p` gives exactly
the box `xMin = xMax = p.x`, `yMin = yMax = p.y`; every box obtained from the default box by
the updates `p :: ps` has `xMin ≤ xMax` and `yMin ≤ yMax`; and one more update of any box
with these two inequalities keeps them. -/
theorem C11_box_invariant (lim : NumericLimits) (p : Point) (hp : lim.inRange p)
    (ps : List Point) :
    (BoundingBox.empty lim)._update p = ⟨p.x, p.x, p.y, p.y⟩ ∧
    (((p :: ps).foldl BoundingBox._update (BoundingBox.empty lim)).xMin ≤
        ((p :: ps).foldl BoundingBox._update (BoundingBox.empty lim)).xMax ∧
      ((p :: ps).foldl BoundingBox._update (BoundingBox.empty lim)).yMin ≤
        ((p :: ps).foldl BoundingBox._update (BoundingBox.empty lim)).yMax) ∧
    (∀ (b : BoundingBox) (q : Point), b.xMin ≤ b.xMax → b.yMin ≤ b.yMax →
      (b._update q).xMin ≤ (b._update q).xMax ∧ (b._update q).yMin ≤ (b._update q).yMax) := by
  obtain ⟨h1, h2, h3, h4⟩ := hp
  refine ⟨?_, ?_, ?_⟩
  · rw [BoundingBox._update_eq]
    simp only [BoundingBox.empty, BoundingBox.mk.injEq]
    exact ⟨min_eq_right h2, max_eq_right h1, min_eq_right h4, max_eq_right h3⟩
  · obtain ⟨_, hall⟩ :=
      BoundingBox.foldl_update_contains (p :: ps) (BoundingBox.empty lim)
    obtain ⟨c1, c2, c3, c4⟩ := hall p (List.mem_cons_self _ _)
    exact ⟨le_trans c1 c2, le_trans c3 c4⟩
  · intro b q _ _
    obtain ⟨e1, e2, e3, e4⟩ := BoundingBox._update_fields b q
    rw [e1, e2, e3, e4]
    exact ⟨le_trans (min_le_right _ _) (le_max_right _ _),
      le_trans (min_le_right _ _) (le_max_right _ _)⟩

/-- Witness for C11 over 32-bit integers: the first update with `(3, 4)` gives the box
`[3, 3] × [4, 4]`. -/
theorem C11_box_invariant_witness :
    int32.inRange ⟨3, 4⟩ ∧
    (BoundingBox.empty int32)._update ⟨3, 4⟩ = ⟨3, 3, 4, 4⟩ :=
  ⟨by unfold NumericLimits.inRange; decide,
    (C11_box_invariant int32 ⟨3, 4⟩ (by unfold NumericLimits.inRange; decide) [⟨7, 1⟩]).1⟩

/-! ### The uniqueness counter -/

/-- Over a prefix of `n ≥ 1` entries, the indices from 1 on whose point has no earlier equal
number one less than the distinct points of the prefix. -/
theorem countP_isUniqueAt_succ (points : List Point) :
    ∀ n : Nat, n + 1 ≤ points.length →
      (List.range' 1 n).countP (isUniqueAt points) + 1 =
        (points.take (n + 1)).toFinset.card := by
  intro n
  induction n with
  | zero =>
    intro h
    have := card_take_succ points 0 (by omega)
    simp only [List.take_zero, List.toFinset_nil, Finset.card_empty, List.not_mem_nil,
      if_false, Nat.zero_add] at this
    rw [this]
    rfl
  | succ m ih =>
    intro h
    have hm : m + 1 < points.length := by omega
    have hsucc := card_take_succ points (m + 1) hm
    rw [List.range'_1_concat, List.countP_append, List.countP_singleton, hsucc,
      ← ih (by omega)]
    have h1 : 1 + m = m + 1 := by omega
    rw [h1]
    by_cases hq : isUniqueAt points (m + 1) = true
    · have hnm := (isUniqueAt_iff points _ hm).mp hq
      rw [if_pos hq, if_neg hnm]
    · have hmem : points.getD (m + 1) default ∈ points.take (m + 1) := by
        by_contra hcon
        exact hq ((isUniqueAt_iff points _ hm).mpr hcon)
      rw [if_neg hq, if_pos hmem]

/-- The increments of the counter over the retained vertices number one less than the
distinct retained points. -/
theorem uniqueIncrements_eq (P : Polygon) (hc : P._count ≤ P.points.length) :
    uniqueIncrements P.points P._count = P.distinctCount - 1 := by
  unfold uniqueIncrements Polygon.distinctCount Polygon.retained
  rcases Nat.eq_zero_or_pos P._count with h0 | hpos
  · rw [h0]
    rfl
  · have h := countP_isUniqueAt_succ P.points (P._count - 1) (by omega)
    have h1 : P._count - 1 + 1 = P._count := by omega
    rw [h1] at h
    omega

/-- C18: for every constructed polygon, `isValidPolygon` returns true exactly when the
retained vertices hold at least four pairwise-distinct points; the increments of the
uniqueness counter, which runs over the indices from 1 on, number the distinct retained
points minus one; and `isValidPolygon` returns true exactly when these increments reach
three. -/
theorem C18_valid_iff_four_distinct (lim : NumericLimits) (vs : List Point) :
    ((Polygon.new lim vs).isValidPolygon = true ↔ 4 ≤ (Polygon.new lim vs).distinctCount) ∧
    uniqueIncrements (Polygon.new lim vs).points (Polygon.new lim vs)._count =
      (Polygon.new lim vs).distinctCount - 1 ∧
    ((Polygon.new lim vs).isValidPolygon = true ↔
      3 ≤ uniqueIncrements (Polygon.new lim vs).points (Polygon.new lim vs)._count) := by
  have hle := Polygon.new_count_le lim vs
  have hv := isValidPolygon_iff_four_distinct (Polygon.new lim vs) hle
  have hu := uniqueIncrements_eq (Polygon.new lim vs) hle
  refine ⟨hv, hu, ?_⟩
  rw [hv, hu]
  omega

/-! ### Horizontal edges -/

/-- Every edge of the ring ends at some vertex `vs[i]` and starts at the vertex before it in
ring order (the last vertex when `i = 0`): the edges the edge loop visits. -/
theorem mem_ringEdges_index (vs : List Point) (e : Line) (he : e ∈ ringEdges vs) :
    ∃ i, i < vs.length ∧ e.p2 = vs.getD i default ∧
      e.p1 = vs.getD (if i = 0 then vs.length - 1 else i - 1) default := by
  unfold ringEdges at he
  rw [List.mem_map] at he
  obtain ⟨ab, hab, rfl⟩ := he
  rw [List.mem_iff_getElem?] at hab
  obtain ⟨k, hk⟩ := hab
  rw [List.getElem?_zip_eq_some] at hk
  obtain ⟨h1, h2⟩ := hk
  obtain ⟨hklt, _⟩ := List.getElem?_eq_some.mp h1
  have hp1 : ab.1 = vs.getD k default := by
    rw [List.getD_eq_getElem?_getD, h1]
    rfl
  by_cases hlast : k + 1 < vs.length
  · refine ⟨k + 1, hlast, ?_, ?_⟩
    · rw [List.getElem?_append_left (by rw [List.length_tail]; omega),
        List.getElem?_tail] at h2
      rw [List.getD_eq_getElem?_getD, h2]
      rfl
    · rw [if_neg (by omega)]
      exact hp1
  · have hk1 : k = vs.length - 1 := by omega
    refine ⟨0, by omega, ?_, ?_⟩
    · rw [List.getElem?_append_right (by rw [List.length_tail]; omega),
        List.length_tail] at h2
      have h0 : k - (vs.length - 1) = 0 := by omega
      rw [h0, List.getElem?_take_of_lt (by omega)] at h2
      rw [List.getD_eq_getElem?_getD, h2]
      rfl
    · rw [if_pos rfl, ← hk1]
      exact hp1

/-- Once some edge still ahead of the loop classifies the point `ON_LINE`, the edge loop
returns true, whatever `isInside` holds. -/
theorem edgeLoop_true_of_on_line (lim : NumericLimits) (points : List Point) (count : Nat)
    (q : Point) (d : direction_t) (t : Nat) (ht : t < count)
    (hon : _pointLineIntersects lim q
      ⟨points.getD (if t = 0 then count - 1 else t - 1) default, points.getD t default⟩ d =
        ON_LINE) :
    ∀ (remaining : Nat) (b : Bool), remaining ≤ count → count - remaining ≤ t →
      edgeLoop lim points count q d remaining
        (if count - remaining = 0 then count - 1 else count - remaining - 1) b = true := by
  intro remaining
  induction remaining with
  | zero => intro b _ h; omega
  | succ r ih =>
    intro b hr hle
    have hnext : (if count - r = 0 then count - 1 else count - r - 1) = count - (r + 1) := by
      rw [if_neg (by omega)]
      omega
    have ih1 := fun b' => ih b' (by omega)
    rw [hnext] at ih1
    unfold edgeLoop
    simp only []
    by_cases hti : t = count - (r + 1)
    · rw [← hti, hon]
    · have hle2 : count - r ≤ t := by omega
      cases hcls : _pointLineIntersects lim q
        ⟨points.getD (if count - (r + 1) = 0 then count - 1 else count - (r + 1) - 1) default,
          points.getD (count - (r + 1)) default⟩ d with
      | ON_LINE => rfl
      | INTERSECT => exact ih1 _ hle2
      | NO_INTERSECT => exact ih1 _ hle2

/-- A horizontal edge classifies `ON_LINE` every point at its height whose abscissa lies in
`[min, max)` of its endpoint abscissas. -/
theorem pointLineIntersects_horizontal (lim : NumericLimits) (q : Point) (line : Line)
    (d : direction_t)
    (hh : line.p1.y = line.p2.y) (hy : q.y = line.p1.y)
    (h1 : min line.p1.x line.p2.x ≤ q.x) (h2 : q.x < max line.p1.x line.p2.x) :
    _pointLineIntersects lim q line d = ON_LINE := by
  have hlt : ¬ line.p1.y < line.p2.y := by omega
  have hgt : ¬ line.p1.y > line.p2.y := by omega
  simp [_pointLineIntersects, Line.getDirection, hlt, hgt, hy, h1, h2]

/-- Reading a prefix below its length reads the array. -/
theorem getD_take_of_lt (points : List Point) (count k : Nat) (h : k < count) :
    (points.take count).getD k default = points.getD k default := by
  simp only [List.getD_eq_getElem?_getD]
  rw [List.getElem?_take_of_lt h]

/-- An entry read below the length of a list is a member of the list. -/
theorem getD_mem_of_lt (l : List Point) (k : Nat) (h : k < l.length) :
    l.getD k default ∈ l := by
  rw [List.getD_eq_getElem _ _ h]
  exact List.getElem_mem h

/-- C17: for every valid constructed polygon and every horizontal edge of its ring (the
closing edge included), a query point at the height of the edge whose abscissa lies in
`[min, max)` of the endpoint abscissas is accepted by `checkPointInPolygon`. -/
theorem C17_horizontal_edge_points_accepted (lim : NumericLimits) (vs : List Point)
    (e : Line) (q : Point)
    (hvalid : (Polygon.new lim vs).isValidPolygon = true)
    (he : e ∈ ringEdges (Polygon.new lim vs).retained)
    (hh : e.p1.y = e.p2.y) (hy : q.y = e.p1.y)
    (h1 : min e.p1.x e.p2.x ≤ q.x) (h2 : q.x < max e.p1.x e.p2.x) :
    (Polygon.new lim vs).checkPointInPolygon q = true := by
  have hle : (Polygon.new lim vs)._count ≤ (Polygon.new lim vs).points.length :=
    Polygon.new_count_le lim vs
  have hlen : (Polygon.new lim vs).retained.length = (Polygon.new lim vs)._count := by
    unfold Polygon.retained
    rw [List.length_take]
    omega
  obtain ⟨i, hi, hp2, hp1⟩ := mem_ringEdges_index _ e he
  rw [hlen] at hi hp1
  have hprev : (if i = 0 then (Polygon.new lim vs)._count - 1 else i - 1) <
      (Polygon.new lim vs)._count := by
    split_ifs <;> omega
  have hm1 : e.p1 ∈ (Polygon.new lim vs).retained := by
    rw [hp1]
    exact getD_mem_of_lt _ _ (by rw [hlen]; exact hprev)
  have hm2 : e.p2 ∈ (Polygon.new lim vs).retained := by
    rw [hp2]
    exact getD_mem_of_lt _ _ (by rw [hlen]; exact hi)
  have hbox : (Polygon.new lim vs).boundingBox.checkPointInBoundingBox q = true := by
    rw [BoundingBox.checkPointInBoundingBox_iff, Polygon.new_boundingBox]
    obtain ⟨_, hall⟩ := BoundingBox.foldl_update_contains
      (Polygon.new lim vs).retained (BoundingBox.empty lim)
    obtain ⟨a1, a2, a3, a4⟩ := hall e.p1 hm1
    obtain ⟨b1, b2, _, _⟩ := hall e.p2 hm2
    refine ⟨le_trans (le_min a1 b1) h1, le_trans (le_of_lt h2) (max_le a2 b2), ?_, ?_⟩
    · rw [hy]; exact a3
    · rw [hy]; exact a4
  unfold Polygon.retained at hp1 hp2
  rw [getD_take_of_lt _ _ _ hprev] at hp1
  rw [getD_take_of_lt _ _ _ hi] at hp2
  have hon : _pointLineIntersects (Polygon.new lim vs).lim q
      ⟨(Polygon.new lim vs).points.getD
          (if i = 0 then (Polygon.new lim vs)._count - 1 else i - 1) default,
        (Polygon.new lim vs).points.getD i default⟩
      (seedLoop (Polygon.new lim vs).points ((Polygon.new lim vs)._count - 1) DIR_NONE) =
        ON_LINE := by
    rw [← hp1, ← hp2]
    exact pointLineIntersects_horizontal _ q e _ hh hy h1 h2
  have hloop := edgeLoop_true_of_on_line _ _ _ q _ i hi hon (Polygon.new lim vs)._count false
    (le_refl _) (by omega)
  rw [Nat.sub_self, if_pos rfl] at hloop
  unfold Polygon.checkPointInPolygon
  rw [hvalid, hbox]
  exact hloop

/-- Witness for C17 at the square with the collinear vertex `(5, 0)`: the point `(5, 0)`
lies on the horizontal edge from `(5, 0)` to `(10, 0)` and is accepted. -/
theorem C17_horizontal_edge_points_accepted_witness :
    (Polygon.new int32 collinearSquareVertices).isValidPolygon = true ∧
    (⟨⟨5, 0⟩, ⟨10, 0⟩⟩ : Line) ∈ ringEdges (Polygon.new int32 collinearSquareVertices).retained ∧
    (Polygon.new int32 collinearSquareVertices).checkPointInPolygon ⟨5, 0⟩ = true :=
  ⟨by decide, by decide,
    C17_horizontal_edge_points_accepted int32 collinearSquareVertices ⟨⟨5, 0⟩, ⟨10, 0⟩⟩ ⟨5, 0⟩
      (by decide) (by decide) (by decide) (by decide) (by decide) (by decide)⟩

/-! ### Arithmetic of the coordinate type -/

/-- The representability test, as two inequalities. -/
theorem NumericLimits.fits_iff (lim : NumericLimits) (v : Int) :
    lim.fits v = true ↔ lim.min ≤ v ∧ v ≤ lim.max := by
  simp [NumericLimits.fits]

/-- A representable exact result is the result the coordinate type holds. -/
theorem NumericLimits.wrap_eq_of_fits (lim : NumericLimits) (v : Int)
    (h : lim.fits v = true) : lim.wrap v = v := by
  rw [NumericLimits.fits_iff] at h
  unfold NumericLimits.wrap
  rw [Int.emod_eq_of_lt (by omega) (by omega)]
  omega

/-- A representable exact result passes the guard. -/
theorem NumericLimits.checked_eq_ok (lim : NumericLimits) (v : Int)
    (h : lim.fits v = true) : lim.checked v = Except.ok v := by
  unfold NumericLimits.checked
  rw [if_pos h]

/-- The coordinate bound, as four inequalities. -/
theorem Point.within_iff (B : Int) (p : Point) :
    p.within B = true ↔ -B ≤ p.x ∧ p.x ≤ B ∧ -B ≤ p.y ∧ p.y ≤ B := by
  simp [Point.within, and_assoc]

/-- Truncating division of a non-negative numerator by a positive divisor is the floor. -/
theorem le_tdiv_iff_of_nonneg (a n d : Int) (hn : 0 ≤ n) (hd : 0 < d) :
    a ≤ n.tdiv d ↔ a * d ≤ n := by
  rw [Int.tdiv_eq_ediv hn (le_of_lt hd)]
  exact Int.le_ediv_iff_mul_le hd

/-- Truncating division of a non-positive numerator by a positive divisor is the ceiling. -/
theorem le_tdiv_iff_of_nonpos (a n d : Int) (hn : n ≤ 0) (hd : 0 < d) :
    a ≤ n.tdiv d ↔ a * d < n + d := by
  have hneg : n = -(-n) := by omega
  have hm : 0 ≤ -n := by omega
  rw [hneg, Int.neg_tdiv, Int.tdiv_eq_ediv hm (le_of_lt hd)]
  have key : (-n) / d < -a + 1 ↔ -n < (-a + 1) * d := Int.ediv_lt_iff_lt_mul hd
  have hring : (-a + 1) * d = -(a * d) + d := by ring
  rw [hring] at key
  constructor
  · intro h
    have : (-n) / d < -a + 1 := by omega
    have := key.mp this
    omega
  · intro h
    have : -n < -(a * d) + d := by omega
    have := key.mpr this
    omega

/-- The truncated quotient of the interpolation lies between zero and the horizontal
extent of the edge: for `0 < ny < uy`, the quotient of `ny * ux` by `uy` is between `0` and
`ux`. -/
theorem tdiv_interpolation_bounds (ny ux uy : Int) (h0 : 0 < ny) (h1 : ny < uy) :
    (0 ≤ ux → 0 ≤ (ny * ux).tdiv uy ∧ (ny * ux).tdiv uy ≤ ux) ∧
    (ux ≤ 0 → ux ≤ (ny * ux).tdiv uy ∧ (ny * ux).tdiv uy ≤ 0) := by
  have hd : 0 < uy := by omega
  constructor
  · intro hux
    have hn : 0 ≤ ny * ux := mul_nonneg (le_of_lt h0) hux
    constructor
    · rw [le_tdiv_iff_of_nonneg 0 _ _ hn hd]
      omega
    · by_contra hcon
      have h2 : ux + 1 ≤ (ny * ux).tdiv uy := by omega
      rw [le_tdiv_iff_of_nonneg _ _ _ hn hd] at h2
      nlinarith
  · intro hux
    have hn : ny * ux ≤ 0 := mul_nonpos_of_nonneg_of_nonpos (le_of_lt h0) hux
    constructor
    · rw [le_tdiv_iff_of_nonpos _ _ _ hn hd]
      nlinarith
    · by_contra hcon
      have h2 : 1 ≤ (ny * ux).tdiv uy := by omega
      rw [le_tdiv_iff_of_nonpos _ _ _ hn hd] at h2
      omega

/-- With all coordinates at most `B` in absolute value and `4 * B * B` representable, every
intermediate result of the interpolation is representable: the four differences, the
product, the quotient and the sum. -/
theorem interpolation_fits (lim : NumericLimits) (B : Int) (lower upper q : Point)
    (hB : lim.holdsProducts B = true) (hl : lower.within B = true)
    (hu : upper.within B = true) (hq : q.within B = true)
    (hq1 : lower.y < q.y) (hq2 : q.y < upper.y) :
    lim.fits (upper.x - lower.x) = true ∧ lim.fits (upper.y - lower.y) = true ∧
    lim.fits (q.x - lower.x) = true ∧ lim.fits (q.y - lower.y) = true ∧
    lim.fits ((q.y - lower.y) * (upper.x - lower.x)) = true ∧
    lim.fits (((q.y - lower.y) * (upper.x - lower.x)).tdiv (upper.y - lower.y)) = true ∧
    lim.fits
      (lower.x + ((q.y - lower.y) * (upper.x - lower.x)).tdiv (upper.y - lower.y)) = true := by
  rw [Point.within_iff] at hl hu hq
  obtain ⟨l1, l2, l3, l4⟩ := hl
  obtain ⟨u1, u2, u3, u4⟩ := hu
  obtain ⟨q1, q2, q3, q4⟩ := hq
  have hB' : lim.min ≤ -(4 * B * B) ∧ 4 * B * B ≤ lim.max := by
    simpa [NumericLimits.holdsProducts] using hB
  obtain ⟨b1, b2⟩ := hB'
  have hB1 : 1 ≤ B := by omega
  have hBB : 2 * B ≤ 4 * B * B := by nlinarith
  have hny0 : 0 < q.y - lower.y := by omega
  have hny1 : q.y - lower.y < upper.y - lower.y := by omega
  have hny2 : q.y - lower.y ≤ 2 * B := by omega
  have hux1 : -(2 * B) ≤ upper.x - lower.x := by omega
  have hux2 : upper.x - lower.x ≤ 2 * B := by omega
  have hp1 : (q.y - lower.y) * (upper.x - lower.x) ≤ 4 * B * B := by nlinarith
  have hp2 : -(4 * B * B) ≤ (q.y - lower.y) * (upper.x - lower.x) := by nlinarith
  obtain ⟨ht1, ht2⟩ := tdiv_interpolation_bounds (q.y - lower.y) (upper.x - lower.x)
    (upper.y - lower.y) hny0 hny1
  simp only [NumericLimits.fits_iff]
  refine ⟨by omega, by omega, by omega, by omega, by omega, ?_, ?_⟩
  · rcases le_total 0 (upper.x - lower.x) with h | h
    · obtain ⟨t1, t2⟩ := ht1 h
      omega
    · obtain ⟨t1, t2⟩ := ht2 h
      omega
  · rcases le_total 0 (upper.x - lower.x) with h | h
    · obtain ⟨t1, t2⟩ := ht1 h
      omega
    · obtain ⟨t1, t2⟩ := ht2 h
      omega

/-! ### The sloped-edge branch -/

/-- On a sloped edge, at a query height strictly between the endpoint heights and with every
intermediate result representable, the code reaches the interpolation and the classification
is the comparison of `q.x` with `lower.x` plus the truncated quotient. -/
theorem pointLineIntersects_sloped (lim : NumericLimits) (lower upper q : Point)
    (line : Line) (d : direction_t)
    (hy : lower.y < upper.y) (hx : lower.x ≠ upper.x)
    (hq1 : lower.y < q.y) (hq2 : q.y < upper.y)
    (hl : line = ⟨lower, upper⟩ ∨ line = ⟨upper, lower⟩)
    (hf : lim.fits (upper.x - lower.x) = true ∧ lim.fits (upper.y - lower.y) = true ∧
      lim.fits (q.x - lower.x) = true ∧ lim.fits (q.y - lower.y) = true ∧
      lim.fits ((q.y - lower.y) * (upper.x - lower.x)) = true ∧
      lim.fits (((q.y - lower.y) * (upper.x - lower.x)).tdiv (upper.y - lower.y)) = true ∧
      lim.fits
        (lower.x + ((q.y - lower.y) * (upper.x - lower.x)).tdiv (upper.y - lower.y)) = true) :
    _pointLineIntersects lim q line d =
      if q.x ≤ lower.x + Int.tdiv ((q.y - lower.y) * (upper.x - lower.x))
          (upper.y - lower.y) then INTERSECT else NO_INTERSECT := by
  obtain ⟨f1, f2, _, f4, f5, f6, f7⟩ := hf
  have w1 := lim.wrap_eq_of_fits _ f1
  have w2 := lim.wrap_eq_of_fits _ f2
  have w4 := lim.wrap_eq_of_fits _ f4
  have w5 := lim.wrap_eq_of_fits _ f5
  have w6 := lim.wrap_eq_of_fits _ f6
  have w7 := lim.wrap_eq_of_fits _ f7
  have h1 : ¬ q.y = lower.y := by omega
  have h2 : ¬ q.y = upper.y := by omega
  have h3 : ¬ upper.y < lower.y := by omega
  have h4 : ¬ q.y < lower.y := by omega
  have h5 : ¬ upper.y < q.y := by omega
  have h6 : ¬ upper.y = lower.y := by omega
  have h7 : ¬ lower.y = upper.y := by omega
  rcases hl with rfl | rfl
  · simp [_pointLineIntersects, Line.getDirection, hy, h1, h2, h3, h4, h5, h6, h7, hx,
      w1, w2, w4, w5, w6, w7]
  · simp [_pointLineIntersects, Line.getDirection, hy, h1, h2, h3, h4, h5, h6, h7, hx,
      w1, w2, w4, w5, w6, w7]

/-- The guarded classification on such an edge passes every guard and returns the
classification of the source. -/
theorem pointLineIntersectsChecked_sloped (lim : NumericLimits) (lower upper q : Point)
    (line : Line) (d : direction_t)
    (hy : lower.y < upper.y) (hx : lower.x ≠ upper.x)
    (hq1 : lower.y < q.y) (hq2 : q.y < upper.y)
    (hl : line = ⟨lower, upper⟩ ∨ line = ⟨upper, lower⟩)
    (hf : lim.fits (upper.x - lower.x) = true ∧ lim.fits (upper.y - lower.y) = true ∧
      lim.fits (q.x - lower.x) = true ∧ lim.fits (q.y - lower.y) = true ∧
      lim.fits ((q.y - lower.y) * (upper.x - lower.x)) = true ∧
      lim.fits (((q.y - lower.y) * (upper.x - lower.x)).tdiv (upper.y - lower.y)) = true ∧
      lim.fits
        (lower.x + ((q.y - lower.y) * (upper.x - lower.x)).tdiv (upper.y - lower.y)) = true) :
    _pointLineIntersectsChecked lim q line d =
      Except.ok (if q.x ≤ lower.x + Int.tdiv ((q.y - lower.y) * (upper.x - lower.x))
          (upper.y - lower.y) then INTERSECT else NO_INTERSECT) := by
  obtain ⟨f1, f2, f3, f4, f5, f6, f7⟩ := hf
  have c1 := lim.checked_eq_ok _ f1
  have c2 := lim.checked_eq_ok _ f2
  have c3 := lim.checked_eq_ok _ f3
  have c4 := lim.checked_eq_ok _ f4
  have c5 := lim.checked_eq_ok _ f5
  have c6 := lim.checked_eq_ok _ f6
  have c7 := lim.checked_eq_ok _ f7
  have h1 : ¬ q.y = lower.y := by omega
  have h2 : ¬ q.y = upper.y := by omega
  have h3 : ¬ upper.y < lower.y := by omega
  have h4 : ¬ q.y < lower.y := by omega
  have h5 : ¬ upper.y < q.y := by omega
  have h6 : ¬ upper.y = lower.y := by omega
  have h7 : ¬ lower.y = upper.y := by omega
  have h8 : 0 < upper.y - lower.y := by omega
  rcases hl with rfl | rfl
  · simp only [_pointLineIntersectsChecked, Line.getDirection, hy, h1, h2, h3, h4, h5, h6, h7,
      hx, c1, c2, c3, c4, c5, c6, c7, h8, if_true, if_false, gt_iff_lt, reduceCtorEq,
      beq_iff_eq, Bool.or_eq_true, decide_eq_true_eq, or_self, Bool.false_eq_true]
    split_ifs <;> rfl
  · simp only [_pointLineIntersectsChecked, Line.getDirection, hy, h1, h2, h3, h4, h5, h6, h7,
      hx, c1, c2, c3, c4, c5, c6, c7, h8, if_true, if_false, gt_iff_lt, reduceCtorEq,
      beq_iff_eq, Bool.or_eq_true, decide_eq_true_eq, or_self, Bool.false_eq_true]
    split_ifs <;> rfl

/-- The guarded classification never faults when all coordinates are at most `B` in absolute
value and `4 * B * B` is representable: every arithmetic result is representable and the
divisor is strictly positive whenever the division is reached, and the result is the
classification of the source. -/
theorem pointLineIntersectsChecked_eq_ok (lim : NumericLimits) (B : Int) (q : Point)
    (line : Line) (d : direction_t) (hB : lim.holdsProducts B = true)
    (hq : q.within B = true) (h1 : line.p1.within B = true)
    (h2 : line.p2.within B = true) :
    _pointLineIntersectsChecked lim q line d =
      Except.ok (_pointLineIntersects lim q line d) := by
  obtain ⟨p1, p2⟩ := line
  have hp1 : p1.within B = true := h1
  have hp2 : p2.within B = true := h2
  rcases lt_trichotomy p1.y p2.y with h | h | h
  · by_cases hreach : p1.y < q.y ∧ q.y < p2.y ∧ p1.x ≠ p2.x
    · obtain ⟨r1, r2, r3⟩ := hreach
      have hf := interpolation_fits lim B p1 p2 q hB hp1 hp2 hq r1 r2
      rw [pointLineIntersectsChecked_sloped lim p1 p2 q ⟨p1, p2⟩ d h r3 r1 r2
          (Or.inl rfl) hf,
        pointLineIntersects_sloped lim p1 p2 q ⟨p1, p2⟩ d h r3 r1 r2 (Or.inl rfl) hf]
    · have hcases : q.y = p1.y ∨ q.y = p2.y ∨ q.y < p1.y ∨ p2.y < q.y ∨
          (p1.y < q.y ∧ q.y < p2.y ∧ p1.x = p2.x) := by
        by_cases e : p1.x = p2.x
        · omega
        · have : ¬ (p1.y < q.y ∧ q.y < p2.y) := fun hc => hreach ⟨hc.1, hc.2, e⟩
          omega
      have hn1 : ¬ p2.y < p1.y := by omega
      have hn2 : ¬ p2.y = p1.y := by omega
      have hn3 : ¬ p1.y = p2.y := by omega
      rcases hcases with c | c | c | c | ⟨c1, c2, c3⟩
      · simp only [_pointLineIntersectsChecked, _pointLineIntersects, Line.getDirection, h,
          hn1, hn2, hn3, c, if_true, if_false, gt_iff_lt, reduceCtorEq, beq_self_eq_true,
          beq_iff_eq]
        split_ifs <;> rfl
      · simp only [_pointLineIntersectsChecked, _pointLineIntersects, Line.getDirection, h,
          hn1, hn2, hn3, c, if_true, if_false, gt_iff_lt, reduceCtorEq, beq_self_eq_true,
          beq_iff_eq]
      · have e1 : ¬ q.y = p1.y := by omega
        have e2 : ¬ q.y = p2.y := by omega
        simp only [_pointLineIntersectsChecked, _pointLineIntersects, Line.getDirection, h,
          hn1, hn2, hn3, c, e1, e2, if_true, if_false, gt_iff_lt, reduceCtorEq, beq_iff_eq,
          decide_True, Bool.true_or, Bool.or_true]
      · have e1 : ¬ q.y = p1.y := by omega
        have e2 : ¬ q.y = p2.y := by omega
        simp only [_pointLineIntersectsChecked, _pointLineIntersects, Line.getDirection, h,
          hn1, hn2, hn3, c, e1, e2, if_true, if_false, gt_iff_lt, reduceCtorEq, beq_iff_eq,
          decide_True, Bool.true_or, Bool.or_true]
      · have e1 : ¬ q.y = p1.y := by omega
        have e2 : ¬ q.y = p2.y := by omega
        have e3 : ¬ q.y < p1.y := by omega
        have e4 : ¬ p2.y < q.y := by omega
        simp only [_pointLineIntersectsChecked, _pointLineIntersects, Line.getDirection, h,
          hn1, hn2, hn3, c3, e1, e2, e3, e4, if_true, if_false, gt_iff_lt, reduceCtorEq,
          beq_iff_eq, beq_self_eq_true, decide_False, Bool.or_self, Bool.false_eq_true]
        split_ifs <;> rfl
  · have hn1 : ¬ p1.y < p2.y := by omega
    have hn2 : ¬ p2.y < p1.y := by omega
    simp only [_pointLineIntersectsChecked, _pointLineIntersects, Line.getDirection, hn1, hn2,
      if_true, if_false, gt_iff_lt]
    split_ifs <;> rfl
  · by_cases hreach : p2.y < q.y ∧ q.y < p1.y ∧ p2.x ≠ p1.x
    · obtain ⟨r1, r2, r3⟩ := hreach
      have hf := interpolation_fits lim B p2 p1 q hB hp2 hp1 hq r1 r2
      rw [pointLineIntersectsChecked_sloped lim p2 p1 q ⟨p1, p2⟩ d h r3 r1 r2
          (Or.inr rfl) hf,
        pointLineIntersects_sloped lim p2 p1 q ⟨p1, p2⟩ d h r3 r1 r2 (Or.inr rfl) hf]
    · have hcases : q.y = p2.y ∨ q.y = p1.y ∨ q.y < p2.y ∨ p1.y < q.y ∨
          (p2.y < q.y ∧ q.y < p1.y ∧ p2.x = p1.x) := by
        by_cases e : p2.x = p1.x
        · omega
        · have : ¬ (p2.y < q.y ∧ q.y < p1.y) := fun hc => hreach ⟨hc.1, hc.2, e⟩
          omega
      have hn1 : ¬ p1.y < p2.y := by omega
      have hn2 : ¬ p1.y = p2.y := by omega
      have hn3 : ¬ p2.y = p1.y := by omega
      rcases hcases with c | c | c | c | ⟨c1, c2, c3⟩
      · simp only [_pointLineIntersectsChecked, _pointLineIntersects, Line.getDirection, h,
          hn1, hn2, hn3, c, if_true, if_false, gt_iff_lt, reduceCtorEq, beq_self_eq_true,
          beq_iff_eq]
      · simp only [_pointLineIntersectsChecked, _pointLineIntersects, Line.getDirection, h,
          hn1, hn2, hn3, c, if_true, if_false, gt_iff_lt, reduceCtorEq, beq_self_eq_true,
          beq_iff_eq]
        split_ifs <;> rfl
      · have e1 : ¬ q.y = p2.y := by omega
        have e2 : ¬ q.y = p1.y := by omega
        simp only [_pointLineIntersectsChecked, _pointLineIntersects, Line.getDirection, h,
          hn1, hn2, hn3, c, e1, e2, if_true, if_false, gt_iff_lt, reduceCtorEq, beq_iff_eq,
          decide_True, Bool.true_or, Bool.or_true]
      · have e1 : ¬ q.y = p2.y := by omega
        have e2 : ¬ q.y = p1.y := by omega
        simp only [_pointLineIntersectsChecked, _pointLineIntersects, Line.getDirection, h,
          hn1, hn2, hn3, c, e1, e2, if_true, if_false, gt_iff_lt, reduceCtorEq, beq_iff_eq,
          decide_True, Bool.true_or, Bool.or_true]
      · have e1 : ¬ q.y = p2.y := by omega
        have e2 : ¬ q.y = p1.y := by omega
        have e3 : ¬ q.y < p2.y := by omega
        have e4 : ¬ p1.y < q.y := by omega
        simp only [_pointLineIntersectsChecked, _pointLineIntersects, Line.getDirection, h,
          hn1, hn2, hn3, c3, e1, e2, e3, e4, if_true, if_false, gt_iff_lt, reduceCtorEq,
          beq_iff_eq, beq_self_eq_true, decide_False, Bool.or_self, Bool.false_eq_true]
        split_ifs <;> rfl

/-! ### The guarded run -/

/-- A guarded read below the retained count succeeds and reads the array entry. -/
theorem readVertex_eq_ok (points : List Point) (count i : Nat) (hc : count ≤ points.length)
    (hi : i < count) : readVertex points count i = Except.ok (points.getD i default) := by
  unfold readVertex
  rw [if_pos hi, List.getElem?_eq_getElem (by omega), List.getD_eq_getElem _ _ (by omega)]

/-- The guarded seed loop started at `i < count` with `j = i - 1` and at least `i` units of
fuel never faults and returns the direction of the seed loop. -/
theorem seedLoopChecked_eq_ok (points : List Point) (count : Nat)
    (hc : count ≤ points.length) :
    ∀ (fuel i j : Nat) (d : direction_t), i ≤ fuel → i < count → (0 < i → j = i - 1) →
      seedLoopChecked points count fuel i j d = Except.ok (seedLoop points i d) := by
  intro fuel
  induction fuel with
  | zero =>
    intro i j d hi _ _
    have h0 : i = 0 := by omega
    subst h0
    simp [seedLoopChecked, seedLoop]
  | succ f ih =>
    intro i j d hi hic hj
    cases i with
    | zero => simp [seedLoopChecked, seedLoop]
    | succ k =>
      have hjk : j = k := by have := hj (by omega); omega
      subst hjk
      unfold seedLoopChecked seedLoop
      rw [if_pos (by omega), readVertex_eq_ok points count j hc (by omega),
        readVertex_eq_ok points count (j + 1) hc hic]
      simp only []
      by_cases hn : (Line.mk (points.getD j default) (points.getD (j + 1) default)).getDirection
          = DIR_NONE
      · rw [if_pos hn, if_pos hn]
        exact ih j (size_t_decrement j) _ (by omega) (by omega)
          (fun hpos => by unfold size_t_decrement; rw [if_neg (by omega)])
      · rw [if_neg hn, if_neg hn]

/-- The guarded edge loop at index `i` with `j < count` and at least `count - i` units of
fuel, over entries and a query point at most `B` in absolute value, never faults and returns
the result of the edge loop. -/
theorem edgeLoopChecked_eq_ok (lim : NumericLimits) (B : Int) (points : List Point)
    (count : Nat) (q : Point) (d : direction_t) (hc : count ≤ points.length)
    (hB : lim.holdsProducts B = true) (hq : q.within B = true)
    (hpts : ∀ k, k < count → (points.getD k default).within B = true) :
    ∀ (fuel i j : Nat) (b : Bool), i ≤ count → count - i ≤ fuel → (i < count → j < count) →
      edgeLoopChecked lim points count q d fuel i j b =
        Except.ok (edgeLoop lim points count q d (count - i) j b) := by
  intro fuel
  induction fuel with
  | zero =>
    intro i j b hi hf _
    have h0 : count - i = 0 := by omega
    rw [h0]
    unfold edgeLoopChecked edgeLoop
    rw [if_neg (by omega)]
  | succ f ih =>
    intro i j b hi hf hj
    by_cases hlt : i < count
    · obtain ⟨r, hr⟩ : ∃ r, count - i = r + 1 := ⟨count - i - 1, by omega⟩
      have hidx : count - (r + 1) = i := by omega
      have hnext : count - (i + 1) = r := by omega
      rw [hr]
      unfold edgeLoopChecked edgeLoop
      rw [if_pos hlt, readVertex_eq_ok points count j hc (hj hlt),
        readVertex_eq_ok points count i hc hlt]
      simp only [hidx]
      rw [pointLineIntersectsChecked_eq_ok lim B q
        ⟨points.getD j default, points.getD i default⟩ d hB hq (hpts j (hj hlt)) (hpts i hlt)]
      have ih1 := fun b' => ih (i + 1) i b' (by omega) (by omega) (fun _ => hlt)
      rw [hnext] at ih1
      cases hcls : _pointLineIntersects lim q
        ⟨points.getD j default, points.getD i default⟩ d with
      | ON_LINE => rfl
      | INTERSECT => exact ih1 _
      | NO_INTERSECT => exact ih1 _
    · have h0 : count - i = 0 := by omega
      rw [h0]
      unfold edgeLoopChecked edgeLoop
      rw [if_neg hlt]

/-- C12, counterexample: over 32-bit `int`, the guarded run faults with `overflow` on a valid
polygon whose heights are the extremes of the type, at the query point `(0, 0)` inside its
box (the difference of heights `2147483647 - (-2147483648)` is not representable, and wraps
to the divisor `-1`); it also faults on a valid polygon with coordinates up to `100000` at
the query point `(40000, 50000)`, where the product `50000 * 100000` is not representable. -/
theorem C12_overflow_counterexample :
    ((Polygon.new int32 extremeVertices).isValidPolygon = true ∧
      (∀ p ∈ extremeVertices, int32.inRange p) ∧
      (Polygon.new int32 extremeVertices).boundingBox.checkPointInBoundingBox ⟨0, 0⟩ = true ∧
      (Polygon.new int32 extremeVertices).checkPointInPolygonChecked 4 ⟨0, 0⟩ =
        Except.error Fault.overflow ∧
      int32.wrap (2147483647 - (-2147483648)) = -1) ∧
    ((Polygon.new int32 largeVertices).isValidPolygon = true ∧
      (Polygon.new int32 largeVertices).checkPointInPolygonChecked 4 ⟨40000, 50000⟩ =
        Except.error Fault.overflow ∧
      int32.fits (50000 * 100000) = false) := by
  refine ⟨⟨by decide, ?_, by decide, by rfl, by decide⟩, by decide, by rfl, by decide⟩
  intro p hp
  simp only [extremeVertices, List.mem_cons, List.mem_singleton, List.not_mem_nil,
    or_false] at hp
  rcases hp with rfl | rfl | rfl | rfl <;> (unfold NumericLimits.inRange; decide)

/-- C12, amended: on every polygon constructed from a non-empty vertex list whose vertices,
like the query point, have coordinates at most `B` in absolute value, where the coordinate
type represents `4 * B * B`, the guarded run of `checkPointInPolygon` with fuel at least the
retained count returns normally, with the result of the predicate: no read of the seed loop
or of the edge loop is at an index that is not below the retained count, no arithmetic
result overflows, the divisor of the interpolation is strictly positive whenever the
division is reached, and both loops end within the fuel. -/
theorem C12_guarded_run_never_faults (lim : NumericLimits) (vs : List Point)
    (_hne : vs ≠ []) (B : Int) (hB : lim.holdsProducts B = true)
    (hvs : ∀ p ∈ vs, p.within B = true) (q : Point) (hq : q.within B = true)
    (fuel : Nat) (hfuel : (Polygon.new lim vs)._count ≤ fuel) :
    (Polygon.new lim vs).checkPointInPolygonChecked fuel q =
      Except.ok ((Polygon.new lim vs).checkPointInPolygon q) := by
  have hle : (Polygon.new lim vs)._count ≤ (Polygon.new lim vs).points.length :=
    Polygon.new_count_le lim vs
  have hpts : ∀ k, k < (Polygon.new lim vs)._count →
      ((Polygon.new lim vs).points.getD k default).within B = true := by
    intro k hk
    exact hvs _ (getD_mem_of_lt vs k (lt_of_lt_of_le hk hle))
  unfold Polygon.checkPointInPolygonChecked Polygon.checkPointInPolygon
  by_cases hv : (Polygon.new lim vs).isValidPolygon = true
  · have h3 : ¬ (Polygon.new lim vs)._count < 3 := by
      intro hlt
      unfold Polygon.isValidPolygon at hv
      rw [if_pos hlt] at hv
      exact absurd hv (by simp)
    by_cases hb : (Polygon.new lim vs).boundingBox.checkPointInBoundingBox q = true
    · rw [hv, hb]
      simp only [Bool.not_true, Bool.false_eq_true, if_false]
      rw [seedLoopChecked_eq_ok _ _ hle fuel ((Polygon.new lim vs)._count - 1)
        ((Polygon.new lim vs)._count - 2) DIR_NONE (by omega) (by omega) (fun _ => by omega)]
      simp only []
      have hloop := edgeLoopChecked_eq_ok (Polygon.new lim vs).lim B
        (Polygon.new lim vs).points (Polygon.new lim vs)._count q
        (seedLoop (Polygon.new lim vs).points ((Polygon.new lim vs)._count - 1) DIR_NONE)
        hle hB hq hpts fuel 0 ((Polygon.new lim vs)._count - 1) false (by omega) (by omega)
        (fun _ => by omega)
      rw [Nat.sub_zero] at hloop
      exact hloop
    · rw [Bool.not_eq_true] at hb
      rw [hv, hb]
      rfl
  · rw [Bool.not_eq_true] at hv
    rw [hv]
    rfl

/-- Witness for C12 at the diamond over 32-bit `int`, with `B = 10`, the query point
`(2, 3)` on a sloped edge and four units of fuel. -/
theorem C12_guarded_run_never_faults_witness :
    diamondVertices ≠ [] ∧ int32.holdsProducts 10 = true ∧
    (∀ p ∈ diamondVertices, p.within 10 = true) ∧ (⟨2, 3⟩ : Point).within 10 = true ∧
    (Polygon.new int32 diamondVertices)._count ≤ 4 ∧
    (Polygon.new int32 diamondVertices).checkPointInPolygonChecked 4 ⟨2, 3⟩ =
      Except.ok ((Polygon.new int32 diamondVertices).checkPointInPolygon ⟨2, 3⟩) :=
  ⟨by decide, by decide, by decide, by decide, by decide,
    C12_guarded_run_never_faults int32 diamondVertices (by decide) 10 (by decide)
      (by decide) ⟨2, 3⟩ (by decide) 4 (by decide)⟩

/-! ### The truncated quotient on sloped edges -/

/-- On a sloped edge, at a query height strictly between the endpoint heights and with every
intermediate result representable: for an edge leaning right (`lower.x < upper.x`) the
classification is `INTERSECT` exactly when the point is on or left of the edge; for an edge
leaning left the truncated quotient is rounded toward the right, and the classification is
`INTERSECT` exactly when
`(q.x - lower.x) * (upper.y - lower.y) < (q.y - lower.y) * (upper.x - lower.x)
  + (upper.y - lower.y)`. -/
theorem pointLineIntersects_sloped_iff (lim : NumericLimits) (lower upper q : Point)
    (line : Line) (d : direction_t)
    (hy : lower.y < upper.y) (hx : lower.x ≠ upper.x)
    (hq1 : lower.y < q.y) (hq2 : q.y < upper.y)
    (hl : line = ⟨lower, upper⟩ ∨ line = ⟨upper, lower⟩)
    (hf : lim.fits (upper.x - lower.x) = true ∧ lim.fits (upper.y - lower.y) = true ∧
      lim.fits (q.x - lower.x) = true ∧ lim.fits (q.y - lower.y) = true ∧
      lim.fits ((q.y - lower.y) * (upper.x - lower.x)) = true ∧
      lim.fits (((q.y - lower.y) * (upper.x - lower.x)).tdiv (upper.y - lower.y)) = true ∧
      lim.fits
        (lower.x + ((q.y - lower.y) * (upper.x - lower.x)).tdiv (upper.y - lower.y)) = true) :
    (lower.x < upper.x → (_pointLineIntersects lim q line d = INTERSECT ↔
      (q.x - lower.x) * (upper.y - lower.y) ≤ (q.y - lower.y) * (upper.x - lower.x))) ∧
    (upper.x < lower.x → (_pointLineIntersects lim q line d = INTERSECT ↔
      (q.x - lower.x) * (upper.y - lower.y) <
        (q.y - lower.y) * (upper.x - lower.x) + (upper.y - lower.y))) := by
  have hcode := pointLineIntersects_sloped lim lower upper q line d hy hx hq1 hq2 hl hf
  have hd : 0 < upper.y - lower.y := by omega
  have hny : 0 < q.y - lower.y := by omega
  have hiff : _pointLineIntersects lim q line d = INTERSECT ↔
      q.x - lower.x ≤ Int.tdiv ((q.y - lower.y) * (upper.x - lower.x))
        (upper.y - lower.y) := by
    rw [hcode]
    split_ifs with h
    · exact ⟨fun _ => by omega, fun _ => rfl⟩
    · exact ⟨fun hc => absurd hc (by decide), fun hc => absurd (by omega) h⟩
  constructor
  · intro hlean
    have hn : 0 ≤ (q.y - lower.y) * (upper.x - lower.x) :=
      le_of_lt (mul_pos hny (by omega))
    rw [hiff]
    exact le_tdiv_iff_of_nonneg _ _ _ hn hd
  · intro hlean
    have hn : (q.y - lower.y) * (upper.x - lower.x) ≤ 0 :=
      le_of_lt (mul_neg_of_pos_of_neg hny (by omega))
    rw [hiff]
    exact le_tdiv_iff_of_nonpos _ _ _ hn hd

/-- C16 (the code departs from the claim): over 32-bit `int`, for the sloped edge from
`(3, 0)` to `(0, 2)` and the query point `(2, 1)`, strictly between the endpoint heights,
the edge is classified `INTERSECT` although the exact comparison
`(2 - 3) * (2 - 0) ≤ (1 - 0) * (0 - 3)` fails: the point is strictly right of the edge
(negative `cross`).  No operation overflows (the guarded run returns normally).  The edge
belongs to the valid quadrilateral `leaningVertices`, all of whose vertices lie on or left
of it, so the point is outside the quadrilateral; `checkPointInPolygon` accepts it. -/
theorem C16_left_leaning_edge_overcounts :
    _pointLineIntersects int32 ⟨2, 1⟩ ⟨⟨3, 0⟩, ⟨0, 2⟩⟩ DIR_UP = INTERSECT ∧
    ¬ (((2 : Int) - 3) * (2 - 0) ≤ (1 - 0) * (0 - 3)) ∧
    cross ⟨3, 0⟩ ⟨0, 2⟩ ⟨2, 1⟩ < 0 ∧
    (⟨⟨3, 0⟩, ⟨0, 2⟩⟩ : Line) ∈ ringEdges (Polygon.new int32 leaningVertices).retained ∧
    (∀ v ∈ (Polygon.new int32 leaningVertices).retained, 0 ≤ cross ⟨3, 0⟩ ⟨0, 2⟩ v) ∧
    (Polygon.new int32 leaningVertices).isValidPolygon = true ∧
    (Polygon.new int32 leaningVertices).checkPointInPolygonChecked 4 ⟨2, 1⟩ =
      Except.ok true ∧
    (Polygon.new int32 leaningVertices).checkPointInPolygon ⟨2, 1⟩ = true := by
  refine ⟨by decide, by decide, by decide, by decide, by decide, by decide, by rfl,
    by decide⟩

/-! ### The loops outside the bounding box -/

end geo
